import Mathlib

/-!
Verification development for the uniswap-v3-multiagent repository.

Shallow embedding of the risk-analysis and orchestration core:
`RiskScorer` (pool_risk_service/tools/risk_scorer.py), the plan-execute
state machine (pool_risk_service/workflows/rag/plan_execute.py), the
`GraphPaginator` (pool_risk_service/utils.py), the four risk analyzers
(pool_risk_service/tools/*.py) and the backend orchestrator nodes
(backend/workflows/rag/nodes.py).  Python floats are modelled as `ℚ`,
dicts with known field sets as structures, and fallible paths as
`Except`/`Option`.
-/

/-! ## RiskScorer (src/pool_risk_service/tools/risk_scorer.py) -/

namespace RiskScorer

/-- An analyzer output dict as consumed by `RiskScorer.score`:
`result.get("risk_score", 0)` and `result.get("risk_flags", [])` are the
only reads, so the embedding keeps those two fields (with the defaults
already applied). -/
structure AnalyzerResult where
  risk_score : ℚ
  risk_flags : List String
deriving DecidableEq

/-- `config["scoring"]["weights"]`. -/
structure Weights where
  concentration : ℚ
  liquidity_depth : ℚ
  market_risk : ℚ
  behavioral : ℚ
deriving DecidableEq

/-- One entry of `config["scoring"]["risk_levels"]`: a named band with
inclusive `min`/`max` bounds. -/
structure LevelBand where
  name : String
  lo : ℤ
  hi : ℤ
deriving DecidableEq

/-- Python 3 `round` on a float: round half to even (banker's rounding),
here on exact rationals. -/
def pyRound (q : ℚ) : ℤ :=
  let f := ⌊q⌋
  let frac := q - f
  if frac < 1/2 then f
  else if 1/2 < frac then f + 1
  else if f % 2 = 0 then f else f + 1

/-- `RiskScorer._determine_risk_level`: first configured band containing
the score wins, with the level name upper-cased; no band matches gives
"UNKNOWN". -/
def determine_risk_level (levels : List LevelBand) (score : ℤ) : String :=
  match levels.find? (fun b => decide (b.lo ≤ score) && decide (score ≤ b.hi)) with
  | some b => b.name.toUpper
  | none => "UNKNOWN"

/-- The fields of the dict returned by `RiskScorer.score` that the claims
are about (the dict also echoes component scores and raw inputs). -/
structure CompositeResult where
  composite_score : ℤ
  risk_level : String
  risk_flags : List String
deriving DecidableEq

/-- The weighted sum computed by `RiskScorer.score` before rounding. -/
def compositeRaw (w : Weights) (cr lr mr br : AnalyzerResult) : ℚ :=
  cr.risk_score * w.concentration +
  lr.risk_score * w.liquidity_depth +
  mr.risk_score * w.market_risk +
  br.risk_score * w.behavioral

/-- `all_flags` in `RiskScorer.score`: concatenation of the four flag
lists, in argument order. -/
def allFlags (cr lr mr br : AnalyzerResult) : List String :=
  cr.risk_flags ++ lr.risk_flags ++ mr.risk_flags ++ br.risk_flags

/-- `final_flags` in `RiskScorer.score`: drop "LOW_RISK" entries, and
fall back to `["LOW_RISK"]` when nothing remains (Python list
truthiness). -/
def finalFlags (cr lr mr br : AnalyzerResult) : List String :=
  let critical_flags := (allFlags cr lr mr br).filter (fun f => f ≠ "LOW_RISK")
  if critical_flags.isEmpty then ["LOW_RISK"] else critical_flags

/-- `RiskScorer.score`: weighted composite of the four analyzer scores,
rounded; risk level by band lookup; flags via `finalFlags`. -/
def score (w : Weights) (levels : List LevelBand)
    (concentration_result liquidity_result market_result behavioral_result : AnalyzerResult) :
    CompositeResult :=
  ⟨pyRound (compositeRaw w concentration_result liquidity_result market_result behavioral_result),
   determine_risk_level levels
     (pyRound (compositeRaw w concentration_result liquidity_result market_result behavioral_result)),
   finalFlags concentration_result liquidity_result market_result behavioral_result⟩

/-- The flag aggregation that the spec describes for `RiskScorer.score`
(`Modelled from the spec`, for comparison with the code): deduplicated
union of the four flag lists, sentinel dropped once a real flag exists. -/
def spec_dedup_flags (f1 f2 f3 f4 : List String) : List String :=
  let u := (f1 ++ f2 ++ f3 ++ f4).dedup
  let c := u.filter (fun f => f ≠ "LOW_RISK")
  if c.isEmpty then ["LOW_RISK"] else c

end RiskScorer

/-- C1 (counterexample): `RiskScorer.score` is NOT invariant under every
permutation of the four input results for every weight configuration —
the four argument positions carry different configured weights, so
swapping two results with different scores changes the composite score
whenever their positions' weights differ (here weights (1,0,0,0),
scores 10 and 20 swapped). -/
theorem riskScorer_score_not_perm_invariant :
    ¬ (∀ (w : RiskScorer.Weights) (levels : List RiskScorer.LevelBand)
        (a b c d a' b' c' d' : RiskScorer.AnalyzerResult),
        [a', b', c', d'].Perm [a, b, c, d] →
        RiskScorer.score w levels a' b' c' d' = RiskScorer.score w levels a b c d) := by
  intro h
  have h10 := h ⟨1, 0, 0, 0⟩ [] ⟨10, ["LOW_RISK"]⟩ ⟨20, ["LOW_RISK"]⟩ ⟨0, ["LOW_RISK"]⟩
    ⟨0, ["LOW_RISK"]⟩ ⟨20, ["LOW_RISK"]⟩ ⟨10, ["LOW_RISK"]⟩ ⟨0, ["LOW_RISK"]⟩ ⟨0, ["LOW_RISK"]⟩
    (by decide)
  have h2 := congrArg RiskScorer.CompositeResult.composite_score h10
  simp only [RiskScorer.score, RiskScorer.compositeRaw] at h2
  norm_num [RiskScorer.pyRound] at h2

/-- C1 (amended): when the four configured weights are all equal,
`RiskScorer.score` is order-insensitive — the composite score and risk
level are unchanged, and the flag list is permuted, under any
permutation of the four input results. -/
theorem riskScorer_score_perm_invariant_of_equal_weights
    (w : RiskScorer.Weights)
    (hl : w.liquidity_depth = w.concentration)
    (hm : w.market_risk = w.concentration)
    (hb : w.behavioral = w.concentration)
    (levels : List RiskScorer.LevelBand)
    (a b c d a' b' c' d' : RiskScorer.AnalyzerResult)
    (hperm : [a', b', c', d'].Perm [a, b, c, d]) :
    (RiskScorer.score w levels a' b' c' d').composite_score
      = (RiskScorer.score w levels a b c d).composite_score ∧
    (RiskScorer.score w levels a' b' c' d').risk_level
      = (RiskScorer.score w levels a b c d).risk_level ∧
    (RiskScorer.score w levels a' b' c' d').risk_flags.Perm
      (RiskScorer.score w levels a b c d).risk_flags := by
  have hsum : a'.risk_score + (b'.risk_score + (c'.risk_score + d'.risk_score))
      = a.risk_score + (b.risk_score + (c.risk_score + d.risk_score)) := by
    simpa using (hperm.map RiskScorer.AnalyzerResult.risk_score).sum_eq
  have hraw : RiskScorer.compositeRaw w a' b' c' d' = RiskScorer.compositeRaw w a b c d := by
    simp only [RiskScorer.compositeRaw, hl, hm, hb]
    linear_combination w.concentration * hsum
  have hflat : (RiskScorer.allFlags a' b' c' d').Perm (RiskScorer.allFlags a b c d) := by
    simpa [RiskScorer.allFlags, List.append_assoc] using
      (hperm.map RiskScorer.AnalyzerResult.risk_flags).flatten
  have hfil : ((RiskScorer.allFlags a' b' c' d').filter (fun f => f ≠ "LOW_RISK")).Perm
      ((RiskScorer.allFlags a b c d).filter (fun f => f ≠ "LOW_RISK")) :=
    hflat.filter _
  refine ⟨by simp [RiskScorer.score, hraw], by simp [RiskScorer.score, hraw], ?_⟩
  show (RiskScorer.finalFlags a' b' c' d').Perm (RiskScorer.finalFlags a b c d)
  simp only [RiskScorer.finalFlags]
  have hemp : ((RiskScorer.allFlags a' b' c' d').filter (fun f => f ≠ "LOW_RISK")).isEmpty
      = ((RiskScorer.allFlags a b c d).filter (fun f => f ≠ "LOW_RISK")).isEmpty := by
    rw [Bool.eq_iff_iff]
    simp only [List.isEmpty_iff_length_eq_zero, hfil.length_eq]
  rw [hemp]
  cases hcond : ((RiskScorer.allFlags a b c d).filter (fun f => f ≠ "LOW_RISK")).isEmpty
  · rw [if_neg (by simp [hcond]), if_neg (by simp [hcond])]
    exact hfil
  · rw [if_pos (by simp [hcond]), if_pos (by simp [hcond])]

/-- C1 (witness): the amended theorem applied to a concrete swap under an
all-equal weight configuration. -/
theorem riskScorer_score_perm_invariant_witness :
    (RiskScorer.score ⟨1, 1, 1, 1⟩ [] ⟨20, ["B"]⟩ ⟨10, ["A"]⟩ ⟨0, []⟩ ⟨0, []⟩).composite_score
      = (RiskScorer.score ⟨1, 1, 1, 1⟩ [] ⟨10, ["A"]⟩ ⟨20, ["B"]⟩ ⟨0, []⟩ ⟨0, []⟩).composite_score :=
  (riskScorer_score_perm_invariant_of_equal_weights ⟨1, 1, 1, 1⟩ rfl rfl rfl []
    ⟨10, ["A"]⟩ ⟨20, ["B"]⟩ ⟨0, []⟩ ⟨0, []⟩
    ⟨20, ["B"]⟩ ⟨10, ["A"]⟩ ⟨0, []⟩ ⟨0, []⟩ (by decide)).1

/-- C7 (counterexample): the composite flag list is NOT the deduplicated
union of the component flag lists — two components both emitting
"HIGH_GINI" yield it twice in `RiskScorer.score`'s output, while the
spec's deduplicated union contains it once. -/
theorem riskScorer_flags_not_dedup_union :
    ¬ (∀ (w : RiskScorer.Weights) (levels : List RiskScorer.LevelBand)
        (a b c d : RiskScorer.AnalyzerResult),
        (RiskScorer.score w levels a b c d).risk_flags
          = RiskScorer.spec_dedup_flags a.risk_flags b.risk_flags c.risk_flags d.risk_flags) := by
  intro h
  have h1 := h ⟨0, 0, 0, 0⟩ [] ⟨0, ["HIGH_GINI"]⟩ ⟨0, ["HIGH_GINI"]⟩ ⟨0, ["LOW_RISK"]⟩
    ⟨0, ["LOW_RISK"]⟩
  simp only [RiskScorer.score] at h1
  exact absurd h1 (by decide)

/-- C7 (amended): the composite flag list is the concatenation (not the
deduplicated union) of the four component flag lists with the "LOW_RISK"
sentinel removed: it is never empty, each non-sentinel flag occurs as
many times as it occurs across the four components, "LOW_RISK" survives
exactly when no component contributes a real flag, and in that case the
result is exactly `["LOW_RISK"]`. -/
theorem riskScorer_flags_characterization
    (w : RiskScorer.Weights) (levels : List RiskScorer.LevelBand)
    (a b c d : RiskScorer.AnalyzerResult) :
    (RiskScorer.score w levels a b c d).risk_flags ≠ [] ∧
    (∀ f, f ≠ "LOW_RISK" →
      (RiskScorer.score w levels a b c d).risk_flags.count f
        = (RiskScorer.allFlags a b c d).count f) ∧
    ((RiskScorer.score w levels a b c d).risk_flags = ["LOW_RISK"] ↔
      ∀ f ∈ RiskScorer.allFlags a b c d, f = "LOW_RISK") ∧
    ("LOW_RISK" ∈ (RiskScorer.score w levels a b c d).risk_flags ↔
      (RiskScorer.score w levels a b c d).risk_flags = ["LOW_RISK"]) := by
  have hsc : (RiskScorer.score w levels a b c d).risk_flags
      = RiskScorer.finalFlags a b c d := rfl
  by_cases hemp : ((RiskScorer.allFlags a b c d).filter (fun f => f ≠ "LOW_RISK")) = []
  · have hall : ∀ f ∈ RiskScorer.allFlags a b c d, f = "LOW_RISK" := by
      intro f hf
      have := List.filter_eq_nil_iff.mp hemp f hf
      simpa using this
    have hff : RiskScorer.finalFlags a b c d = ["LOW_RISK"] := by
      simp only [RiskScorer.finalFlags]
      rw [hemp]
      rfl
    rw [hsc, hff]
    refine ⟨by simp, ?_, iff_of_true rfl hall, by simp⟩
    intro f hf
    have h0 : (RiskScorer.allFlags a b c d).count f = 0 := by
      rw [List.count_eq_zero]
      intro hmem
      exact hf (hall f hmem)
    rw [h0, List.count_eq_zero]
    simp [hf]
  · have hbool : ((RiskScorer.allFlags a b c d).filter (fun f => f ≠ "LOW_RISK")).isEmpty
        = false := by
      rw [Bool.eq_false_iff]
      intro hx
      exact hemp (List.isEmpty_iff.mp hx)
    have hff : RiskScorer.finalFlags a b c d
        = (RiskScorer.allFlags a b c d).filter (fun f => f ≠ "LOW_RISK") := by
      simp only [RiskScorer.finalFlags]
      rw [hbool]
      rfl
    rw [hsc, hff]
    obtain ⟨g, hg⟩ := List.exists_mem_of_ne_nil _ hemp
    have hgmem := List.mem_filter.mp hg
    have hgne : g ≠ "LOW_RISK" := by simpa using hgmem.2
    have hlownot : "LOW_RISK" ∉ (RiskScorer.allFlags a b c d).filter (fun f => f ≠ "LOW_RISK") := by
      intro hmem
      have := (List.mem_filter.mp hmem).2
      simp at this
    refine ⟨hemp, ?_, ?_, ?_⟩
    · intro f hf
      exact List.count_filter (by simpa using hf)
    · refine iff_of_false ?_ ?_
      · intro heq
        exact hlownot (heq ▸ List.mem_singleton.mpr rfl)
      · intro hall
        exact hgne (hall g hgmem.1)
    · refine iff_of_false hlownot ?_
      intro heq
      exact hlownot (heq ▸ List.mem_singleton.mpr rfl)

/-- C7 (witness): two components both flagging "HIGH_GINI" produce a
count of 2 in the composite flag list. -/
theorem riskScorer_flags_characterization_witness :
    (RiskScorer.score ⟨0, 0, 0, 0⟩ [] ⟨0, ["HIGH_GINI"]⟩ ⟨0, ["HIGH_GINI"]⟩ ⟨0, ["LOW_RISK"]⟩
      ⟨0, ["LOW_RISK"]⟩).risk_flags.count "HIGH_GINI" = 2 :=
  ((riskScorer_flags_characterization ⟨0, 0, 0, 0⟩ [] ⟨0, ["HIGH_GINI"]⟩ ⟨0, ["HIGH_GINI"]⟩
    ⟨0, ["LOW_RISK"]⟩ ⟨0, ["LOW_RISK"]⟩).2.1 "HIGH_GINI" (by decide)).trans (by decide)

/-! ## Plan-execute state machine
(src/pool_risk_service/workflows/rag/plan_execute.py) -/

namespace PlanExecute

/-- The structured plan returned by the planning oracle
(`AnalysisPlan` in workflows/rag/state.py). -/
structure AnalysisPlan where
  reasoning : String
  tools_to_call : List String
  needs_comprehensive : Bool
deriving DecidableEq

/-- The fixed list substituted by `_plan_node` when
`needs_comprehensive` is set. -/
def fullAnalyzerSet : List String :=
  ["analyze_concentration_risk", "analyze_liquidity_depth",
   "analyze_market_risk", "analyze_behavioral_risk"]

/-- Tool selection in `PlanExecuteGraph._plan_node` on a successful
oracle call: a comprehensive plan forces `fullAnalyzerSet`; otherwise
the oracle's proposals are filtered to the registered tool names
(`self.tools_by_name`). -/
def planTools (plan : AnalysisPlan) (registered : List String) : List String :=
  if plan.needs_comprehensive then fullAnalyzerSet
  else plan.tools_to_call.filter (fun t => t ∈ registered)

/-- The designated aggregation tool name. -/
def compositeTool : String := "calculate_composite_risk_score"

/-- The slice of a per-tool result dict read back by `_finalize_node`
(`result.get("composite_score")`, `result.get("risk_level")`). -/
structure ResultDict where
  composite_score : Option ℤ
  risk_level : Option String
deriving DecidableEq

/-- Outcome of one `tool.ainvoke` call in `execute_single_tool`: a
result entry, or an error entry (exception or unregistered tool). -/
inductive ToolOutcome where
  | ok (r : ResultDict)
  | err (e : String)
deriving DecidableEq

/-- One element of `tool_results`: a dict with a `tool` key and either a
`result` or an `error` key. -/
structure ToolEntry where
  tool : String
  outcome : ToolOutcome
deriving DecidableEq

/-- Whether an entry carries a `result` key. -/
def ToolEntry.isSuccess : ToolEntry → Bool
  | ⟨_, .ok _⟩ => true
  | ⟨_, .err _⟩ => false

/-- The initial parallel wave of `_execute_tools_node`: one task per
selected tool except the composite tool (which is filtered out of the
task list, and additionally skipped inside `execute_single_tool`), each
yielding a `{tool, result}` or `{tool, error}` entry. `outcomes` models
what each tool's `ainvoke` produces. -/
def initialResults (tools_to_call : List String) (outcomes : String → ToolOutcome) :
    List ToolEntry :=
  (tools_to_call.filter (fun n => n ≠ compositeTool)).map (fun n => ⟨n, outcomes n⟩)

/-- `len(risk_results)` in `_execute_tools_node`: the number of distinct
tool names among the successful entries (a Python dict keyed by tool
name collapses duplicates). -/
def riskResultsCount (results : List ToolEntry) : Nat :=
  (((results.filter ToolEntry.isSuccess).map ToolEntry.tool).dedup).length

/-- `_execute_tools_node`'s final `tool_results`: the initial wave,
plus a composite entry appended only when the composite tool was
selected, at least 4 distinct tools succeeded, and the composite
invocation itself neither raised nor found the tool missing
(`compOutcome = some r`). -/
def executeToolsResults (tools_to_call : List String) (outcomes : String → ToolOutcome)
    (compOutcome : Option ResultDict) : List ToolEntry :=
  let results := initialResults tools_to_call outcomes
  if compositeTool ∈ tools_to_call ∧ 4 ≤ riskResultsCount results then
    match compOutcome with
    | some r => results ++ [⟨compositeTool, .ok r⟩]
    | none => results
  else results

/-- The response metadata assembled by `_finalize_node`; `none` models
an absent key. -/
structure Metadata where
  tool_count : Nat
  risk_score : Option ℤ
  risk_level : Option String
deriving DecidableEq

/-- `_finalize_node`: scan `tool_results` for the first successful
composite entry; only when it yields a non-None composite score are the
`risk_score`/`risk_level` keys added to the metadata. -/
def finalizeNode (tool_results : List ToolEntry) (tools_called : List String) : Metadata :=
  let found := tool_results.find? (fun tr => tr.tool == compositeTool && tr.isSuccess)
  let risk_score : Option ℤ :=
    match found with
    | some ⟨_, .ok r⟩ => r.composite_score
    | _ => none
  let risk_level : Option String :=
    match found with
    | some ⟨_, .ok r⟩ => r.risk_level
    | _ => none
  { tool_count := tools_called.length,
    risk_score := risk_score,
    risk_level := if risk_score.isSome then risk_level else none }

end PlanExecute

/-- C2: whenever the planning oracle returns a plan with
`needs_comprehensive = true`, `_plan_node` selects exactly the fixed
full analyzer set, regardless of which tool names the oracle proposed
and of which tools are registered. -/
theorem planExecute_comprehensive_forces_full_set
    (plan : PlanExecute.AnalysisPlan) (registered : List String)
    (h : plan.needs_comprehensive = true) :
    PlanExecute.planTools plan registered
      = ["analyze_concentration_risk", "analyze_liquidity_depth",
         "analyze_market_risk", "analyze_behavioral_risk"] ∧
    (∀ (plan' : PlanExecute.AnalysisPlan) (registered' : List String),
      plan'.needs_comprehensive = true →
      PlanExecute.planTools plan' registered' = PlanExecute.planTools plan registered) := by
  constructor
  · simp [PlanExecute.planTools, h, PlanExecute.fullAnalyzerSet]
  · intro plan' registered' h'
    simp [PlanExecute.planTools, h, h']

/-- C2 (witness): a comprehensive plan proposing a bogus tool list still
yields exactly the full analyzer set. -/
theorem planExecute_comprehensive_forces_full_set_witness :
    PlanExecute.planTools ⟨"reasoning", ["bogus_tool"], true⟩ []
      = ["analyze_concentration_risk", "analyze_liquidity_depth",
         "analyze_market_risk", "analyze_behavioral_risk"] :=
  (planExecute_comprehensive_forces_full_set ⟨"reasoning", ["bogus_tool"], true⟩ [] rfl).1

/-- C10: the composite tool is excluded from the initial parallel wave;
a composite entry appears in `tool_results` exactly when the composite
tool was selected, at least 4 distinct other tools returned successful
results, and the composite invocation itself succeeded; and whenever
fewer than 4 distinct tools succeeded or the composite invocation
raised, `_finalize_node`'s metadata carries no risk_score/risk_level. -/
theorem planExecute_composite_gating
    (tools_to_call : List String) (outcomes : String → PlanExecute.ToolOutcome)
    (compOutcome : Option PlanExecute.ResultDict) :
    (∀ e ∈ PlanExecute.initialResults tools_to_call outcomes,
        e.tool ≠ PlanExecute.compositeTool) ∧
    ((∃ e ∈ PlanExecute.executeToolsResults tools_to_call outcomes compOutcome,
        e.tool = PlanExecute.compositeTool) ↔
      (PlanExecute.compositeTool ∈ tools_to_call ∧
        4 ≤ PlanExecute.riskResultsCount (PlanExecute.initialResults tools_to_call outcomes) ∧
        compOutcome.isSome)) ∧
    ((PlanExecute.riskResultsCount (PlanExecute.initialResults tools_to_call outcomes) < 4 ∨
        compOutcome = none) →
      (PlanExecute.finalizeNode
          (PlanExecute.executeToolsResults tools_to_call outcomes compOutcome)
          tools_to_call).risk_score = none ∧
      (PlanExecute.finalizeNode
          (PlanExecute.executeToolsResults tools_to_call outcomes compOutcome)
          tools_to_call).risk_level = none) := by
  have hinit : ∀ e ∈ PlanExecute.initialResults tools_to_call outcomes,
      e.tool ≠ PlanExecute.compositeTool := by
    intro e he
    simp only [PlanExecute.initialResults, List.mem_map] at he
    obtain ⟨n, hn, rfl⟩ := he
    have := (List.mem_filter.mp hn).2
    simpa using this
  have hfind : (PlanExecute.initialResults tools_to_call outcomes).find?
      (fun tr => tr.tool == PlanExecute.compositeTool && tr.isSuccess) = none := by
    rw [List.find?_eq_none]
    intro e he
    simp [hinit e he]
  refine ⟨hinit, ?_, ?_⟩
  · constructor
    · rintro ⟨e, he, hetool⟩
      simp only [PlanExecute.executeToolsResults] at he
      by_cases hcond : PlanExecute.compositeTool ∈ tools_to_call ∧
          4 ≤ PlanExecute.riskResultsCount (PlanExecute.initialResults tools_to_call outcomes)
      · rw [if_pos hcond] at he
        match hcomp : compOutcome with
        | some r => exact ⟨hcond.1, hcond.2, by simp⟩
        | none =>
          exact absurd hetool (hinit e (by simpa using he))
      · rw [if_neg hcond] at he
        exact absurd hetool (hinit e he)
    · rintro ⟨h1, h2, h3⟩
      obtain ⟨r, hr⟩ := Option.isSome_iff_exists.mp h3
      refine ⟨⟨PlanExecute.compositeTool, .ok r⟩, ?_, rfl⟩
      simp only [PlanExecute.executeToolsResults]
      rw [if_pos ⟨h1, h2⟩, hr]
      simp
  · intro hfail
    have hres : PlanExecute.executeToolsResults tools_to_call outcomes compOutcome
        = PlanExecute.initialResults tools_to_call outcomes := by
      simp only [PlanExecute.executeToolsResults]
      rcases hfail with hlt | hnone
      · rw [if_neg]
        rintro ⟨-, hge⟩
        exact absurd hge (by omega)
      · rw [hnone]
        by_cases hcond : PlanExecute.compositeTool ∈ tools_to_call ∧
            4 ≤ PlanExecute.riskResultsCount (PlanExecute.initialResults tools_to_call outcomes)
        · rw [if_pos hcond]
        · rw [if_neg hcond]
    rw [hres]
    simp [PlanExecute.finalizeNode, hfind]

/-- C10 (witness): one successful analyzer plus the selected composite
tool (fewer than 4 successes) yields metadata without risk fields. -/
theorem planExecute_composite_gating_witness :
    (PlanExecute.finalizeNode
        (PlanExecute.executeToolsResults
          ["analyze_concentration_risk", "calculate_composite_risk_score"]
          (fun _ => PlanExecute.ToolOutcome.ok ⟨some 50, some "HIGH"⟩)
          (some ⟨some 50, some "HIGH"⟩))
        ["analyze_concentration_risk", "calculate_composite_risk_score"]).risk_score = none :=
  ((planExecute_composite_gating
      ["analyze_concentration_risk", "calculate_composite_risk_score"]
      (fun _ => PlanExecute.ToolOutcome.ok ⟨some 50, some "HIGH"⟩)
      (some ⟨some 50, some "HIGH"⟩)).2.2 (Or.inl (by decide))).1

/-! ## GraphPaginator (src/pool_risk_service/utils.py) -/

namespace GraphPaginator

/-- A server-side record with its monotone id (ids modelled as `Nat`,
the GraphQL `ID` order) and an opaque payload. -/
structure Record where
  id : Nat
  payload : String
deriving DecidableEq

/-- The records the modelled server still serves after an `id_gt`
cursor; `none` is the initial `last_id = ""`, below every id. -/
def afterCursor (records : List Record) : Option Nat → List Record
  | none => records
  | some c => records.filter (fun r => c < r.id)

/-- One page served by the modelled Graph endpoint: the first
`batch_size` records (in server order) whose id exceeds the cursor —
the `first: $batch_size, id_gt: $last_id` query of `fetch_all`. -/
def servePage (records : List Record) (batch_size : Nat) (cursor : Option Nat) : List Record :=
  (afterCursor records cursor).take batch_size

/-- The `while True` loop of `GraphPaginator.fetch_all`, returning the
successive pages it fetched: break on an empty page; otherwise append
the page, move the cursor to the page's last id, and break if the page
is shorter than `batch_size`.  `fuel` only bounds the recursion; with
`records.length + 1` fuel it never runs out. -/
def fetchLoop (records : List Record) (batch_size : Nat) :
    Nat → Option Nat → List (List Record)
  | 0, _ => []
  | fuel + 1, cursor =>
    let entities := servePage records batch_size cursor
    if entities.isEmpty then [entities]
    else if entities.length < batch_size then [entities]
    else
      match entities.getLast? with
      | some last => entities :: fetchLoop records batch_size fuel (some last.id)
      | none => [entities]

/-- The pages fetched by `fetch_all`, in order. -/
def fetchPages (records : List Record) (batch_size : Nat) : List (List Record) :=
  fetchLoop records batch_size (records.length + 1) none

/-- `GraphPaginator.fetch_all`: the concatenation (`all_entities`) of
the fetched pages. -/
def fetch_all (records : List Record) (batch_size : Nat) : List Record :=
  (fetchPages records batch_size).flatten

/-- A single response of the modelled endpoint inside
`_execute_with_retry`: a transport/HTTP failure (non-2xx
`raise_for_status` or a `requests` exception), or a 2xx JSON body that
either carries a GraphQL-level `errors` array or clean data. -/
inductive Response where
  | netFail (e : String)
  | body (hasErrors : Bool) (data : String)
deriving DecidableEq

/-- Whether the response raises `requests.exceptions.RequestException`. -/
def Response.isNetFail : Response → Bool
  | .netFail _ => true
  | .body _ _ => false

/-- Whether the response is a 2xx body with a GraphQL `errors` array. -/
def Response.isGraphqlError : Response → Bool
  | .body true _ => true
  | _ => false

/-- A failed attempt of either kind (the spec's reading). -/
def Response.isFailure : Response → Bool
  | .netFail _ => true
  | .body he _ => he

/-- Observable outcome of one `_execute_with_retry` call: the returned
data or raised exception, the number of HTTP posts made, and the
backoff sleeps performed, in order. -/
structure RetryTrace where
  result : Except String String
  requests : Nat
  sleeps : List ℚ

/-- The `for attempt in range(self.max_retries)` loop of
`_execute_with_retry`, from `attempt` on (`remaining` iterations left;
falling off the loop hits the final `raise`).  A GraphQL-error body
raises a plain `Exception`, which the `except
requests.exceptions.RequestException` clause does NOT catch, so it
propagates at once; only a `RequestException` reaches the retry path,
which re-raises on the last attempt and otherwise sleeps
`retry_delay * (attempt + 1)` and continues. -/
def retryLoop (retry_delay : ℚ) (responses : Nat → Response) (max_retries : Nat) :
    Nat → Nat → RetryTrace
  | _, 0 => ⟨.error "Unexpected error in retry logic", 0, []⟩
  | attempt, remaining + 1 =>
    match responses attempt with
    | .body true _ => ⟨.error "GraphQL errors", 1, []⟩
    | .body false d => ⟨.ok d, 1, []⟩
    | .netFail e =>
      if attempt = max_retries - 1 then
        ⟨.error ("Query failed after retries: " ++ e), 1, []⟩
      else
        let rest := retryLoop retry_delay responses max_retries (attempt + 1) remaining
        ⟨rest.result, rest.requests + 1, retry_delay * (attempt + 1) :: rest.sleeps⟩

/-- `GraphPaginator._execute_with_retry` over a modelled sequence of
responses (`responses n` = what the n-th HTTP post returns). -/
def executeWithRetry (max_retries : Nat) (retry_delay : ℚ)
    (responses : Nat → Response) : RetryTrace :=
  retryLoop retry_delay responses max_retries 0 max_retries

end GraphPaginator

namespace GraphPaginator

/-- Behaviour of the retry loop when every attempt from `attempt` on
fails at the transport level: all remaining attempts are consumed, with
linearly increasing sleeps between them, and the loop ends in a raised
terminal error. -/
theorem retryLoop_allNetFail (d : ℚ) (responses : Nat → Response) (m : Nat) :
    ∀ (remaining attempt : Nat), attempt + remaining = m → 1 ≤ remaining →
    (∀ i, attempt ≤ i → i < m → (responses i).isNetFail = true) →
    (retryLoop d responses m attempt remaining).result.isOk = false ∧
    (retryLoop d responses m attempt remaining).requests = remaining ∧
    (retryLoop d responses m attempt remaining).sleeps
      = (List.range (remaining - 1)).map (fun (j : ℕ) => d * ((attempt : ℚ) + (j : ℚ) + 1)) := by
  intro remaining
  induction remaining with
  | zero => intro attempt _ h1 _; omega
  | succ r ih =>
    intro attempt hinv _ hfail
    have hcur : (responses attempt).isNetFail = true := hfail attempt le_rfl (by omega)
    obtain ⟨e, he⟩ : ∃ e, responses attempt = .netFail e := by
      cases hre : responses attempt with
      | netFail e => exact ⟨e, rfl⟩
      | body b d2 => rw [hre] at hcur; simp [Response.isNetFail] at hcur
    rcases Nat.eq_zero_or_pos r with hr0 | hrpos
    · subst hr0
      have hlast : attempt = m - 1 := by omega
      simp only [retryLoop, he]
      rw [if_pos hlast]
      refine ⟨rfl, rfl, ?_⟩
      simp
    · have hnotlast : ¬ attempt = m - 1 := by omega
      have hrec := ih (attempt + 1) (by omega) (by omega)
        (fun i hi him => hfail i (by omega) him)
      simp only [retryLoop, he, if_neg hnotlast, Nat.add_sub_cancel]
      refine ⟨hrec.1, by rw [hrec.2.1], ?_⟩
      rw [hrec.2.2]
      obtain ⟨r', hr'⟩ : ∃ r', r = r' + 1 := ⟨r - 1, by omega⟩
      subst hr'
      rw [List.range_succ_eq_map]
      simp only [List.map_cons, List.map_map, Nat.add_sub_cancel, List.cons.injEq]
      refine ⟨by push_cast; ring, ?_⟩
      apply List.map_congr_left
      intro j _
      simp only [Function.comp_apply, Nat.succ_eq_add_one]
      push_cast; ring

/-- Behaviour of the retry loop when the first `k` attempts fail at the
transport level and attempt `k` returns a 2xx body: the loop makes
exactly `k + 1` requests with the linear backoff sleeps between them,
and then either propagates the GraphQL-errors exception at once (no
further retry) or returns the body's data. -/
theorem retryLoop_bodyAt (d : ℚ) (responses : Nat → Response) (m : Nat) :
    ∀ (k remaining attempt : Nat), attempt + remaining = m → k < remaining →
    (∀ i, attempt ≤ i → i < attempt + k → (responses i).isNetFail = true) →
    (((responses (attempt + k)).isGraphqlError = true →
      (retryLoop d responses m attempt remaining).result.isOk = false ∧
      (retryLoop d responses m attempt remaining).requests = k + 1 ∧
      (retryLoop d responses m attempt remaining).sleeps
        = (List.range k).map (fun (j : ℕ) => d * ((attempt : ℚ) + (j : ℚ) + 1))) ∧
    (∀ dta, responses (attempt + k) = .body false dta →
      (retryLoop d responses m attempt remaining).result = .ok dta ∧
      (retryLoop d responses m attempt remaining).requests = k + 1 ∧
      (retryLoop d responses m attempt remaining).sleeps
        = (List.range k).map (fun (j : ℕ) => d * ((attempt : ℚ) + (j : ℚ) + 1)))) := by
  intro k
  induction k with
  | zero =>
    intro remaining attempt hinv hk _
    obtain ⟨r, hr⟩ : ∃ r, remaining = r + 1 := ⟨remaining - 1, by omega⟩
    subst hr
    rw [Nat.add_zero]
    constructor
    · intro hge
      cases hre : responses attempt with
      | netFail e => rw [hre] at hge; simp [Response.isGraphqlError] at hge
      | body b dta =>
        cases b with
        | false => rw [hre] at hge; simp [Response.isGraphqlError] at hge
        | true => simp [retryLoop, hre, Except.isOk, Except.toBool]
    · intro dta hre
      simp [retryLoop, hre]
  | succ k ih =>
    intro remaining attempt hinv hk hfail
    obtain ⟨r, hr⟩ : ∃ r, remaining = r + 1 := ⟨remaining - 1, by omega⟩
    subst hr
    have hcur : (responses attempt).isNetFail = true :=
      hfail attempt le_rfl (by omega)
    obtain ⟨e, he⟩ : ∃ e, responses attempt = .netFail e := by
      cases hre : responses attempt with
      | netFail e => exact ⟨e, rfl⟩
      | body b d2 => rw [hre] at hcur; simp [Response.isNetFail] at hcur
    have hnotlast : ¬ attempt = m - 1 := by omega
    have hrec := ih r (attempt + 1) (by omega) (by omega)
      (fun i hi him => hfail i (by omega) (by omega))
    have hshift : attempt + 1 + k = attempt + (k + 1) := by omega
    rw [hshift] at hrec
    have hsleeps : d * ((attempt : ℚ) + 1) ::
        (List.range k).map (fun (j : ℕ) => d * (((attempt + 1 : Nat) : ℚ) + (j : ℚ) + 1))
        = (List.range (k + 1)).map (fun (j : ℕ) => d * ((attempt : ℚ) + (j : ℚ) + 1)) := by
      rw [List.range_succ_eq_map]
      simp only [List.map_cons, List.map_map, List.cons.injEq]
      refine ⟨by push_cast; ring, ?_⟩
      apply List.map_congr_left
      intro j _
      simp only [Function.comp_apply, Nat.succ_eq_add_one]
      push_cast; ring
    constructor
    · intro hge
      have h1 := hrec.1 hge
      simp only [retryLoop, he, if_neg hnotlast]
      refine ⟨h1.1, by rw [h1.2.1], ?_⟩
      rw [h1.2.2, ← hsleeps]
    · intro dta hre
      have h1 := hrec.2 dta hre
      simp only [retryLoop, he, if_neg hnotlast]
      refine ⟨h1.1, by rw [h1.2.1], ?_⟩
      rw [h1.2.2, ← hsleeps]

end GraphPaginator

/-- C4 (counterexample): it is NOT the case that a GraphQL-level error
body counts as a retried failed attempt — `_execute_with_retry` raises
a plain `Exception` for it, which its `except
requests.exceptions.RequestException` handler does not catch, so with
`max_retries = 3` and every response carrying a GraphQL errors array
only one request is made instead of three. -/
theorem graphPaginator_retry_not_for_graphql_errors :
    ¬ (∀ (max_retries : Nat) (retry_delay : ℚ)
        (responses : Nat → GraphPaginator.Response),
        (∀ i, i < max_retries → (responses i).isFailure = true) →
        (GraphPaginator.executeWithRetry max_retries retry_delay responses).requests
          = max_retries) := by
  intro h
  have h3 := h 3 0 (fun _ => .body true "") (fun i _ => rfl)
  exact absurd h3 (by decide)

/-- C4 (amended): in `_execute_with_retry`, only transport-level
failures (non-2xx / `requests` exceptions) are retried: if all
`max_retries` attempts fail at the transport level, exactly
`max_retries` requests are made with sleeps `retry_delay*1, ...,
retry_delay*(max_retries-1)` between them and a terminal error
propagates; while the first 2xx body, reached after `k` transport
failures, ends the loop at `k+1` requests — propagating the
GraphQL-errors exception immediately (no further retry) if the body
carries an errors array, and otherwise returning the body's data (never
a silent empty fallback). -/
theorem graphPaginator_executeWithRetry_behavior
    (max_retries : Nat) (retry_delay : ℚ)
    (responses : Nat → GraphPaginator.Response) :
    ((1 ≤ max_retries →
      (∀ i, i < max_retries → (responses i).isNetFail = true) →
      (GraphPaginator.executeWithRetry max_retries retry_delay responses).result.isOk = false ∧
      (GraphPaginator.executeWithRetry max_retries retry_delay responses).requests
        = max_retries ∧
      (GraphPaginator.executeWithRetry max_retries retry_delay responses).sleeps
        = (List.range (max_retries - 1)).map
            (fun (j : ℕ) => retry_delay * ((j : ℚ) + 1))) ∧
    (∀ k, k < max_retries → (∀ i, i < k → (responses i).isNetFail = true) →
      ((responses k).isGraphqlError = true →
        (GraphPaginator.executeWithRetry max_retries retry_delay responses).result.isOk
          = false ∧
        (GraphPaginator.executeWithRetry max_retries retry_delay responses).requests
          = k + 1 ∧
        (GraphPaginator.executeWithRetry max_retries retry_delay responses).sleeps
          = (List.range k).map (fun (j : ℕ) => retry_delay * ((j : ℚ) + 1))) ∧
      (∀ dta, responses k = .body false dta →
        (GraphPaginator.executeWithRetry max_retries retry_delay responses).result
          = .ok dta ∧
        (GraphPaginator.executeWithRetry max_retries retry_delay responses).requests
          = k + 1 ∧
        (GraphPaginator.executeWithRetry max_retries retry_delay responses).sleeps
          = (List.range k).map (fun (j : ℕ) => retry_delay * ((j : ℚ) + 1))))) := by
  constructor
  · intro hm hfail
    have h := GraphPaginator.retryLoop_allNetFail retry_delay responses max_retries
      max_retries 0 (by omega) hm (fun i _ him => hfail i him)
    simp only [GraphPaginator.executeWithRetry]
    refine ⟨h.1, h.2.1, ?_⟩
    rw [h.2.2]
    apply List.map_congr_left
    intro j _
    push_cast
    ring
  · intro k hk hfail
    have h := GraphPaginator.retryLoop_bodyAt retry_delay responses max_retries
      k max_retries 0 (by omega) hk (fun i _ him => hfail i (by omega))
    rw [Nat.zero_add] at h
    constructor
    · intro hge
      have h1 := h.1 hge
      simp only [GraphPaginator.executeWithRetry]
      refine ⟨h1.1, h1.2.1, ?_⟩
      rw [h1.2.2]
      apply List.map_congr_left
      intro j _
      push_cast
      ring
    · intro dta hre
      have h1 := h.2 dta hre
      simp only [GraphPaginator.executeWithRetry]
      refine ⟨h1.1, h1.2.1, ?_⟩
      rw [h1.2.2]
      apply List.map_congr_left
      intro j _
      push_cast
      ring

/-- C4 (witness): one transport failure then a GraphQL-error body, with
max_retries = 3: the loop stops after 2 requests. -/
theorem graphPaginator_executeWithRetry_behavior_witness :
    (GraphPaginator.executeWithRetry 3 1
      (fun i => if i = 0 then .netFail "boom" else .body true "x")).requests = 2 :=
  (((graphPaginator_executeWithRetry_behavior 3 1
      (fun i => if i = 0 then .netFail "boom" else .body true "x")).2
    1 (by decide) (by decide)).1 (by decide)).2.1

namespace GraphPaginator

/-- The last element named by `getLast?` is a member of the list. -/
theorem mem_of_getLast?_eq {α : Type} {l : List α} {x : α}
    (h : l.getLast? = some x) : x ∈ l := by
  obtain ⟨hne, hx⟩ := List.mem_getLast?_eq_getLast (Option.mem_def.mpr h)
  subst hx
  exact List.getLast_mem hne

/-- In a strictly id-sorted list, every element's id is bounded by the
last element's id. -/
theorem sorted_le_getLast :
    ∀ {l : List Record}, l.Pairwise (fun a b => a.id < b.id) →
    ∀ {x : Record}, l.getLast? = some x → ∀ y ∈ l, y.id ≤ x.id := by
  intro l
  induction l with
  | nil => intro _ x hx; simp at hx
  | cons a t ih =>
    intro hp x hx y hy
    cases t with
    | nil =>
      simp only [List.getLast?_singleton, Option.some.injEq] at hx
      rcases List.mem_singleton.mp hy with rfl
      rw [hx]
    | cons b t' =>
      rw [List.getLast?_cons_cons] at hx
      rcases List.mem_cons.mp hy with rfl | hyt
      · have hax : x ∈ b :: t' := mem_of_getLast?_eq hx
        exact le_of_lt ((List.pairwise_cons.mp hp).1 x hax)
      · exact ih (List.pairwise_cons.mp hp).2 hx y hyt

/-- In a strictly id-sorted list, filtering for ids above the last id of
the first `k` elements is exactly dropping those `k` elements. -/
theorem filter_gt_last_take {l : List Record} (k : Nat)
    (hs : l.Pairwise (fun a b => a.id < b.id)) {x : Record}
    (hx : (l.take k).getLast? = some x) :
    l.filter (fun r => x.id < r.id) = l.drop k := by
  have htake_sorted : (l.take k).Pairwise (fun a b => a.id < b.id) :=
    List.Pairwise.sublist (List.take_sublist k l) hs
  have hsplit : List.Pairwise (fun a b => a.id < b.id) (l.take k ++ l.drop k) := by
    rw [List.take_append_drop]; exact hs
  have hcross := (List.pairwise_append.mp hsplit).2.2
  have hxmem : x ∈ l.take k := mem_of_getLast?_eq hx
  conv_lhs => rw [← List.take_append_drop k l]
  rw [List.filter_append]
  have h1 : (l.take k).filter (fun r => x.id < r.id) = [] := by
    rw [List.filter_eq_nil_iff]
    intro y hy
    have := sorted_le_getLast htake_sorted hx y hy
    simp only [decide_eq_true_eq]
    omega
  have h2 : (l.drop k).filter (fun r => x.id < r.id) = l.drop k := by
    rw [List.filter_eq_self]
    intro y hy
    have := hcross x hxmem y hy
    simp only [decide_eq_true_eq]
    omega
  rw [h1, h2, List.nil_append]

/-- Moving the cursor to the id of a record that survived the previous
cursor refines the served suffix by the new id filter. -/
theorem afterCursor_gt (records : List Record) (cursor : Option Nat)
    (rem : List Record) (h : afterCursor records cursor = rem)
    (x : Record) (hx : x ∈ rem) :
    afterCursor records (some x.id) = rem.filter (fun r => x.id < r.id) := by
  cases cursor with
  | none =>
    simp only [afterCursor] at h
    subst h
    rfl
  | some c =>
    simp only [afterCursor] at h ⊢
    have hcx : c < x.id := by
      rw [← h] at hx
      have := (List.mem_filter.mp hx).2
      simpa using this
    rw [← h, List.filter_filter]
    apply List.filter_congr
    intro r _
    by_cases hxr : x.id < r.id
    · have hcr : c < r.id := by omega
      simp [hxr, hcr]
    · simp [hxr]

/-- The suffix served after any cursor is strictly id-sorted whenever
the server's records are. -/
theorem afterCursor_pairwise {records : List Record}
    (hs : records.Pairwise (fun a b => a.id < b.id)) (cursor : Option Nat) :
    (afterCursor records cursor).Pairwise (fun a b => a.id < b.id) := by
  cases cursor with
  | none => exact hs
  | some c => exact hs.filter _

end GraphPaginator

namespace GraphPaginator

/-- Full characterization of the pagination loop over a strictly
id-sorted server: the fetched pages concatenate to exactly the records
past the cursor, at least one page is fetched, every page but the last
is full, and the last page is the one shorter than `batch_size` that
ends the loop. -/
theorem fetchLoop_spec (records : List Record) (batch_size : Nat)
    (hb : 1 ≤ batch_size) (hs : records.Pairwise (fun a b => a.id < b.id)) :
    ∀ (fuel : Nat) (cursor : Option Nat) (rem : List Record),
    afterCursor records cursor = rem → rem.length < fuel →
    (fetchLoop records batch_size fuel cursor).flatten = rem ∧
    fetchLoop records batch_size fuel cursor ≠ [] ∧
    (∀ p ∈ (fetchLoop records batch_size fuel cursor).dropLast, p.length = batch_size) ∧
    (∀ p, (fetchLoop records batch_size fuel cursor).getLast? = some p →
      p.length < batch_size) := by
  intro fuel
  induction fuel with
  | zero => intro cursor rem _ h; omega
  | succ fuel ih =>
    intro cursor rem hrem hlen
    have hserve : servePage records batch_size cursor = rem.take batch_size := by
      simp only [servePage, hrem]
    by_cases hempty : (rem.take batch_size).isEmpty
    · have hremnil : rem = [] := by
        cases rem with
        | nil => rfl
        | cons a t =>
          exfalso
          cases batch_size with
          | zero => omega
          | succ n => simp [List.take_succ_cons] at hempty
      subst hremnil
      simp only [fetchLoop, hserve, List.take_nil, List.isEmpty_nil, if_true]
      refine ⟨by simp, by simp, by simp, ?_⟩
      intro p hp
      simp only [List.getLast?_singleton, Option.some.injEq] at hp
      subst hp
      simpa using hb
    · have hne : rem.take batch_size ≠ [] := by
        intro hx
        rw [hx] at hempty
        simp at hempty
      by_cases hshort : (rem.take batch_size).length < batch_size
      · have hremlen : rem.length < batch_size := by
          have := List.length_take batch_size rem
          omega
        have hremtake : rem.take batch_size = rem :=
          List.take_of_length_le (by omega)
        simp only [fetchLoop, hserve]
        rw [if_neg (by simpa [List.isEmpty_iff] using hne), if_pos hshort]
        refine ⟨by simp [hremtake], by simp, by simp, ?_⟩
        intro p hp
        simp only [List.getLast?_singleton, Option.some.injEq] at hp
        subst hp
        exact hshort
      · have hfull : (rem.take batch_size).length = batch_size := by
          have := List.length_take batch_size rem
          omega
        have hremge : batch_size ≤ rem.length := by
          have := List.length_take batch_size rem
          omega
        obtain ⟨last, hlast⟩ :=
          Option.isSome_iff_exists.mp (List.getLast?_isSome.mpr hne)
        have hlastrem : last ∈ rem := List.take_subset _ _ (mem_of_getLast?_eq hlast)
        have hsorted_rem : rem.Pairwise (fun a b => a.id < b.id) := by
          rw [← hrem]
          exact afterCursor_pairwise hs cursor
        have hnext : afterCursor records (some last.id) = rem.drop batch_size := by
          rw [afterCursor_gt records cursor rem hrem last hlastrem]
          exact filter_gt_last_take batch_size hsorted_rem hlast
        have hrec := ih (some last.id) (rem.drop batch_size) hnext
          (by rw [List.length_drop]; omega)
        have hloopeq : fetchLoop records batch_size (fuel + 1) cursor
            = rem.take batch_size :: fetchLoop records batch_size fuel (some last.id) := by
          simp only [fetchLoop, hserve]
          rw [if_neg (by simpa [List.isEmpty_iff] using hne), if_neg hshort, hlast]
        rw [hloopeq]
        refine ⟨?_, by simp, ?_, ?_⟩
        · simp only [List.flatten_cons, hrec.1]
          exact List.take_append_drop batch_size rem
        · intro p hp
          cases hrecnil : fetchLoop records batch_size fuel (some last.id) with
          | nil => exact absurd hrecnil hrec.2.1
          | cons b t =>
            rw [hrecnil, List.dropLast_cons₂] at hp
            rcases List.mem_cons.mp hp with rfl | hpt
            · exact hfull
            · exact hrec.2.2.1 p (by rw [hrecnil]; exact hpt)
        · intro p hp
          cases hrecnil : fetchLoop records batch_size fuel (some last.id) with
          | nil => exact absurd hrecnil hrec.2.1
          | cons b t =>
            rw [hrecnil, List.getLast?_cons_cons] at hp
            exact hrec.2.2.2 p (by rw [hrecnil]; exact hp)

end GraphPaginator

/-- C3: over any modelled server with strictly increasing ids serving
`id_gt` pages of at most `batch_size` records, `fetch_all` returns
exactly the concatenation of all fetched pages — every record once, no
duplicate ids, in server order (it equals the server's record list) —
at least one page is fetched, every page before the last is full, and
the loop terminates exactly at the first fetched page shorter than
`batch_size`. -/
theorem graphPaginator_fetch_all_spec (records : List GraphPaginator.Record)
    (batch_size : Nat)
    (hs : records.Pairwise (fun a b => a.id < b.id)) (hb : 1 ≤ batch_size) :
    GraphPaginator.fetch_all records batch_size = records ∧
    ((GraphPaginator.fetch_all records batch_size).map GraphPaginator.Record.id).Nodup ∧
    GraphPaginator.fetchPages records batch_size ≠ [] ∧
    (∀ p ∈ (GraphPaginator.fetchPages records batch_size).dropLast,
      p.length = batch_size) ∧
    (∀ p, (GraphPaginator.fetchPages records batch_size).getLast? = some p →
      p.length < batch_size) := by
  have h := GraphPaginator.fetchLoop_spec records batch_size hb hs
    (records.length + 1) none records rfl (by omega)
  have hall : GraphPaginator.fetch_all records batch_size = records := h.1
  refine ⟨hall, ?_, h.2.1, h.2.2.1, h.2.2.2⟩
  rw [hall]
  exact List.Pairwise.map GraphPaginator.Record.id (fun a b h => Nat.ne_of_lt h) hs

/-- C3 (witness): batch_size 2 over 5 records split 2/2/1 returns
exactly the 5 records in original server order. -/
theorem graphPaginator_fetch_all_spec_witness :
    GraphPaginator.fetch_all
      [⟨1, "a"⟩, ⟨2, "b"⟩, ⟨3, "c"⟩, ⟨4, "d"⟩, ⟨5, "e"⟩] 2
      = [⟨1, "a"⟩, ⟨2, "b"⟩, ⟨3, "c"⟩, ⟨4, "d"⟩, ⟨5, "e"⟩] :=
  (graphPaginator_fetch_all_spec
    [⟨1, "a"⟩, ⟨2, "b"⟩, ⟨3, "c"⟩, ⟨4, "d"⟩, ⟨5, "e"⟩] 2
    (by decide) (by decide)).1

/-! ## Behavioral risk analyzer
(src/pool_risk_service/tools/behavioral_risk.py) -/

namespace Behavioral

/-- A swap record as used by the behavioral analyzer: sender, recipient,
origin, its transaction id and containing block, and the swap's own id
(block ordering key). -/
structure Swap where
  id : String
  sender : String
  recipient : String
  origin : String
  txId : String
  blockNumber : Nat
deriving DecidableEq

/-- The keys of a Python dict in insertion order (first occurrence
wins), as produced by `defaultdict` grouping. -/
def keysInOrder {α : Type} [DecidableEq α] (l : List α) : List α :=
  l.foldl (fun acc k => if k ∈ acc then acc else acc ++ [k]) []

/-- `swaps_by_block` in `_detect_wash_trading`/`_detect_sandwich_attacks`:
swaps grouped by `transaction.blockNumber`, dict insertion order, each
group in original list order. -/
def swapsByBlock (swaps : List Swap) : List (Nat × List Swap) :=
  (keysInOrder (swaps.map Swap.blockNumber)).map
    (fun b => (b, swaps.filter (fun s => s.blockNumber = b)))

/-- `flows` in `_detect_wash_trading`: per-sender recipient lists (a
`defaultdict(list)` keyed by sender). -/
def flowsOf (block_swaps : List Swap) : List (String × List String) :=
  (keysInOrder (block_swaps.map Swap.sender)).map
    (fun s => (s, (block_swaps.filter (fun sw => sw.sender = s)).map Swap.recipient))

/-- `flows.get(recipient, [])`. -/
def flowsGet (flows : List (String × List String)) (k : String) : List String :=
  match flows.find? (fun p => p.1 = k) with
  | some p => p.2
  | none => []

/-- The contribution of one block to `suspicious_swap_count`: for every
(sender, recipient) occurrence in the block's flows, add 2 when the
recipient's flow list sends back to the sender. -/
def blockSuspiciousCount (block_swaps : List Swap) : Nat :=
  let flows := flowsOf block_swaps
  flows.foldl (fun acc p =>
    p.2.foldl (fun acc2 recipient =>
      if p.1 ∈ flowsGet flows recipient then acc2 + 2 else acc2) acc) 0

/-- `suspicious_swap_count` in `_detect_wash_trading`: blocks with fewer
than 2 swaps are skipped, every other block contributes
`blockSuspiciousCount`. -/
def suspiciousSwapCount (swaps : List Swap) : Nat :=
  (swapsByBlock swaps).foldl (fun acc p =>
    if p.2.length < 2 then acc else acc + blockSuspiciousCount p.2) 0

/-- `wash_trading_pct` returned by `_detect_wash_trading`. -/
def wash_trading_pct (swaps : List Swap) : ℚ :=
  if swaps.isEmpty then 0
  else (suspiciousSwapCount swaps : ℚ) / (swaps.length : ℚ) * 100

/-- A swap occurrence whose mirrored directed pair also occurs in the
same block: the code adds 2 for each such occurrence. -/
def blockReverseOccurrences (block_swaps : List Swap) : Nat :=
  block_swaps.countP (fun sw =>
    block_swaps.any (fun sw2 => sw2.sender = sw.recipient && sw2.recipient = sw.sender))

/-- The distinct directed (sender, recipient) pairs of a block whose
mirror also occurs as a swap in the block. -/
def blockMutualDirected (block_swaps : List Swap) : List (String × String) :=
  ((block_swaps.map (fun sw => (sw.sender, sw.recipient))).filter
    (fun q => block_swaps.any
      (fun sw2 => sw2.sender = q.2 && sw2.recipient = q.1))).dedup

/-- The wash-trading counter the spec describes (`Modelled from the
spec`, for comparison with the code): per block, every unordered
sender↔recipient address pair that occurs as a mutual directed pair
contributes exactly 2 to the suspicious-swap counter.  An unordered
mutual pair with distinct addresses appears in `blockMutualDirected` in
both directions, so `length` counts it twice; a self-pair appears once
and the correction term counts it a second time — either way each
unordered mutual pair contributes exactly 2. -/
def spec_mutualPairDouble (swaps : List Swap) : Nat :=
  ((swapsByBlock swaps).map (fun p =>
    (blockMutualDirected p.2).length
      + ((blockMutualDirected p.2).filter (fun q => q.1 = q.2)).length)).sum

end Behavioral

namespace Behavioral

/-- Dict-key accumulation: membership in the accumulated key list. -/
theorem keysInOrder_foldl_mem {α : Type} [DecidableEq α] :
    ∀ (l acc : List α) (x : α),
      (x ∈ l.foldl (fun acc k => if k ∈ acc then acc else acc ++ [k]) acc ↔
        x ∈ acc ∨ x ∈ l) := by
  intro l
  induction l with
  | nil => intro acc x; simp
  | cons k t ih =>
    intro acc x
    rw [List.foldl_cons, ih]
    by_cases hk : k ∈ acc
    · rw [if_pos hk]
      constructor
      · rintro (h | h)
        · exact Or.inl h
        · exact Or.inr (List.mem_cons_of_mem k h)
      · rintro (h | h)
        · exact Or.inl h
        · rcases List.mem_cons.mp h with rfl | h
          · exact Or.inl hk
          · exact Or.inr h
    · rw [if_neg hk]
      simp only [List.mem_append, List.mem_singleton, List.mem_cons]
      tauto

/-- Dict-key accumulation: the accumulated key list stays duplicate-free. -/
theorem keysInOrder_foldl_nodup {α : Type} [DecidableEq α] :
    ∀ (l acc : List α), acc.Nodup →
      (l.foldl (fun acc k => if k ∈ acc then acc else acc ++ [k]) acc).Nodup := by
  intro l
  induction l with
  | nil => intro acc h; simpa using h
  | cons k t ih =>
    intro acc hacc
    rw [List.foldl_cons]
    by_cases hk : k ∈ acc
    · rw [if_pos hk]; exact ih acc hacc
    · rw [if_neg hk]
      refine ih _ ?_
      rw [List.nodup_append]
      refine ⟨hacc, List.nodup_singleton k, ?_⟩
      intro a ha hb
      rw [List.mem_singleton] at hb
      subst hb
      exact hk ha

/-- Keys of a dict grouping are exactly the occurring keys. -/
theorem keysInOrder_mem {α : Type} [DecidableEq α] (l : List α) (x : α) :
    x ∈ keysInOrder l ↔ x ∈ l := by
  rw [keysInOrder, keysInOrder_foldl_mem]
  simp

/-- Keys of a dict grouping are duplicate-free. -/
theorem keysInOrder_nodup {α : Type} [DecidableEq α] (l : List α) :
    (keysInOrder l).Nodup :=
  keysInOrder_foldl_nodup l [] List.nodup_nil

/-- A fold that adds 2 per element satisfying `p` counts twice the
matching elements. -/
theorem foldl_ite_two {α : Type} (p : α → Prop) [DecidablePred p] :
    ∀ (l : List α) (init : Nat),
      l.foldl (fun acc x => if p x then acc + 2 else acc) init
        = init + 2 * l.countP (fun x => decide (p x)) := by
  intro l
  induction l with
  | nil => intro init; simp
  | cons x t ih =>
    intro init
    rw [List.foldl_cons, ih, List.countP_cons]
    by_cases hx : p x
    · rw [if_pos hx, if_pos (by simpa using hx)]; omega
    · rw [if_neg hx, if_neg (by simpa using hx)]; omega

/-- A fold whose step adds `g x` accumulates the sum of `g`. -/
theorem foldl_eq_add_sum {α : Type} (f : Nat → α → Nat) (g : α → Nat)
    (hf : ∀ acc x, f acc x = acc + g x) :
    ∀ (l : List α) (init : Nat), l.foldl f init = init + (l.map g).sum := by
  intro l
  induction l with
  | nil => intro init; simp
  | cons x t ih =>
    intro init
    rw [List.foldl_cons, ih, hf]
    simp only [List.map_cons, List.sum_cons]
    omega

/-- Counting with `P` splits along any boolean partition `Q`. -/
theorem countP_split {α : Type} (P Q : α → Bool) :
    ∀ l : List α,
      l.countP P = (l.filter Q).countP P + (l.filter (fun x => !Q x)).countP P := by
  intro l
  induction l with
  | nil => simp
  | cons x t ih =>
    by_cases hq : Q x = true <;> by_cases hp : P x = true <;>
      simp [List.countP_cons, List.filter_cons, hq, hp, ih] <;> omega

/-- Summing per-key match counts over a duplicate-free covering key list
recovers the total match count. -/
theorem sum_countP_partition {α κ : Type} [DecidableEq κ] (key : α → κ) (P : α → Bool) :
    ∀ (ks : List κ) (l : List α), ks.Nodup → (∀ x ∈ l, key x ∈ ks) →
      (ks.map (fun k => (l.filter (fun x => key x = k)).countP P)).sum = l.countP P := by
  intro ks
  induction ks with
  | nil =>
    intro l _ hcover
    have : l = [] := by
      cases l with
      | nil => rfl
      | cons x t => exact absurd (hcover x (List.mem_cons_self x t)) (by simp)
    subst this
    simp
  | cons k0 ks ih =>
    intro l hnodup hcover
    have hk0 : k0 ∉ ks := (List.nodup_cons.mp hnodup).1
    have hterm : ∀ k ∈ ks,
        (l.filter (fun x => key x = k)).countP P
          = ((l.filter (fun x => !(decide (key x = k0)))).filter
              (fun x => key x = k)).countP P := by
      intro k hk
      have hkne : k ≠ k0 := by
        intro hh
        exact hk0 (hh ▸ hk)
      rw [List.filter_filter]
      congr 1
      apply List.filter_congr
      intro x _
      by_cases hx : key x = k
      · simp [hx, hkne]
      · simp [hx]
    have hrest : (ks.map (fun k => (l.filter (fun x => key x = k)).countP P)).sum
        = (ks.map (fun k =>
            ((l.filter (fun x => !(decide (key x = k0)))).filter
              (fun x => key x = k)).countP P)).sum := by
      congr 1
      exact List.map_congr_left hterm
    rw [List.map_cons, List.sum_cons, hrest,
      ih (l.filter (fun x => !(decide (key x = k0)))) (List.nodup_cons.mp hnodup).2 ?_]
    · have := countP_split P (fun x => decide (key x = k0)) l
      omega
    · intro x hx
      have hx1 := List.mem_filter.mp hx
      have hne : ¬ key x = k0 := by simpa using hx1.2
      rcases List.mem_cons.mp (hcover x hx1.1) with h | h
      · exact absurd h hne
      · exact h

/-- Finding a key in a list that contains it returns exactly that key. -/
theorem find?_self_of_mem {α : Type} [DecidableEq α] :
    ∀ (l : List α) (r : α), r ∈ l → l.find? (fun k => k = r) = some r := by
  intro l
  induction l with
  | nil => intro r h; simp at h
  | cons k t ih =>
    intro r hr
    by_cases hk : k = r
    · subst hk
      simp [List.find?_cons]
    · rcases List.mem_cons.mp hr with h | h
      · exact absurd h.symm hk
      · rw [List.find?_cons_of_neg _ (by simpa using hk)]
        exact ih r h

end Behavioral


namespace Behavioral

/-- `flows.get(r, [])` holds exactly the recipients of `r`'s swaps:
membership in it witnesses a swap from `r` to `s` in the block. -/
theorem flowsGet_mem (bs : List Swap) (r s : String) :
    s ∈ flowsGet (flowsOf bs) r ↔ ∃ sw2 ∈ bs, sw2.sender = r ∧ sw2.recipient = s := by
  unfold flowsGet flowsOf
  rw [List.find?_map]
  have hcomp : ((fun p : String × List String => decide (p.1 = r)) ∘
      fun s => (s, (bs.filter (fun sw => sw.sender = s)).map Swap.recipient))
      = fun k => decide (k = r) := rfl
  rw [hcomp]
  by_cases hr : r ∈ keysInOrder (bs.map Swap.sender)
  · rw [find?_self_of_mem _ r hr]
    show s ∈ (bs.filter (fun sw => sw.sender = r)).map Swap.recipient ↔ _
    constructor
    · intro hmem
      obtain ⟨sw, hsw, hrec⟩ := List.mem_map.mp hmem
      have hf := List.mem_filter.mp hsw
      exact ⟨sw, hf.1, by simpa using hf.2, hrec⟩
    · rintro ⟨sw2, hmem, hsend, hrec⟩
      exact List.mem_map.mpr ⟨sw2, List.mem_filter.mpr ⟨hmem, by simpa using hsend⟩, hrec⟩
  · have hfind : (keysInOrder (bs.map Swap.sender)).find? (fun k => k = r) = none := by
      rw [List.find?_eq_none]
      intro k hk
      simp only [decide_eq_true_eq]
      intro hkr
      exact hr (hkr ▸ hk)
    rw [hfind]
    show s ∈ ([] : List String) ↔ _
    constructor
    · intro h
      simp at h
    · rintro ⟨sw2, hmem, hsend, hrec⟩
      exfalso
      apply hr
      rw [keysInOrder_mem]
      exact List.mem_map.mpr ⟨sw2, hmem, hsend⟩

/-- One block's suspicious-swap contribution is twice the number of swap
occurrences whose mirrored directed pair also occurs in the block. -/
theorem blockSuspiciousCount_eq (bs : List Swap) :
    blockSuspiciousCount bs = 2 * blockReverseOccurrences bs := by
  have h1 : blockSuspiciousCount bs
      = ((flowsOf bs).map
          (fun p => 2 * p.2.countP
            (fun r => decide (p.1 ∈ flowsGet (flowsOf bs) r)))).sum := by
    have := foldl_eq_add_sum
      (fun acc p => p.2.foldl
        (fun acc2 recipient =>
          if p.1 ∈ flowsGet (flowsOf bs) recipient then acc2 + 2 else acc2) acc)
      (fun p => 2 * p.2.countP (fun r => decide (p.1 ∈ flowsGet (flowsOf bs) r)))
      (fun acc p => foldl_ite_two _ p.2 acc)
      (flowsOf bs) 0
    simpa [blockSuspiciousCount] using this
  rw [h1]
  show (((keysInOrder (bs.map Swap.sender)).map
      (fun s => (s, (bs.filter (fun sw => sw.sender = s)).map Swap.recipient))).map
      (fun p => 2 * p.2.countP (fun r => decide (p.1 ∈ flowsGet (flowsOf bs) r)))).sum
    = 2 * blockReverseOccurrences bs
  rw [List.map_map]
  have hterm : ∀ k ∈ keysInOrder (bs.map Swap.sender),
      ((fun p : String × List String =>
          2 * p.2.countP (fun r => decide (p.1 ∈ flowsGet (flowsOf bs) r))) ∘
        fun s => (s, (bs.filter (fun sw => sw.sender = s)).map Swap.recipient)) k
      = 2 * (bs.filter (fun sw => sw.sender = k)).countP
          (fun sw => bs.any
            (fun sw2 => sw2.sender = sw.recipient && sw2.recipient = sw.sender)) := by
    intro k _
    simp only [Function.comp_apply]
    congr 1
    rw [List.countP_map]
    apply List.countP_congr
    intro sw hsw
    have hsender : sw.sender = k := by simpa using (List.mem_filter.mp hsw).2
    simp only [Function.comp_apply, decide_eq_true_eq, List.any_eq_true,
      Bool.and_eq_true, decide_eq_true_eq]
    rw [flowsGet_mem, ← hsender]
  rw [List.map_congr_left hterm, List.sum_map_mul_left,
    sum_countP_partition Swap.sender _ (keysInOrder (bs.map Swap.sender)) bs
      (keysInOrder_nodup _)
      (fun x hx => (keysInOrder_mem _ _).mpr (List.mem_map.mpr ⟨x, hx, rfl⟩))]
  rfl

/-- The total suspicious-swap count is the per-block sum, blocks with
fewer than two swaps excluded. -/
theorem suspiciousSwapCount_eq (swaps : List Swap) :
    suspiciousSwapCount swaps
      = ((swapsByBlock swaps).map (fun p =>
          if p.2.length < 2 then 0 else 2 * blockReverseOccurrences p.2)).sum := by
  have hstep : ∀ (acc : Nat) (p : Nat × List Swap),
      (if p.2.length < 2 then acc else acc + blockSuspiciousCount p.2)
        = acc + (if p.2.length < 2 then 0 else blockSuspiciousCount p.2) := by
    intro acc p
    by_cases h : p.2.length < 2 <;> simp [h]
  have h1 := foldl_eq_add_sum
    (fun acc p => if p.2.length < 2 then acc else acc + blockSuspiciousCount p.2)
    (fun p => if p.2.length < 2 then 0 else blockSuspiciousCount p.2)
    hstep (swapsByBlock swaps) 0
  have h2 : suspiciousSwapCount swaps
      = ((swapsByBlock swaps).map (fun p =>
          if p.2.length < 2 then 0 else blockSuspiciousCount p.2)).sum := by
    simpa [suspiciousSwapCount] using h1
  rw [h2]
  congr 1
  apply List.map_congr_left
  intro p _
  by_cases h : p.2.length < 2
  · simp [h]
  · simp [h, blockSuspiciousCount_eq]

end Behavioral

/-- C6 (counterexample): a mutual sender↔recipient pair does NOT
contribute 2 to the suspicious-swap counter — the loop over flows
counts every directed occurrence of the pair separately and adds 2 each
time, so one block with swaps A→B and B→A yields a counter of 4 (and a
wash percentage of 200%), not the 2 the spec's per-pair reading gives. -/
theorem behavioral_wash_not_two_per_pair :
    ¬ (∀ swaps : List Behavioral.Swap,
        Behavioral.suspiciousSwapCount swaps = Behavioral.spec_mutualPairDouble swaps) := by
  intro h
  have h2 := h [⟨"1", "A", "B", "A", "t1", 1⟩, ⟨"2", "B", "A", "B", "t2", 1⟩]
  exact absurd h2 (by decide)

/-- C6 (amended): swaps are grouped per block and, in every block with
at least two swaps, every directed swap occurrence sender→recipient
whose mirrored pair recipient→sender also occurs in the same block
contributes 2 to the suspicious-swap counter (so one mutual pair with a
swap in each direction contributes 4); the wash-trading percentage is
suspiciousCount / totalSwaps × 100. -/
theorem behavioral_wash_characterization (swaps : List Behavioral.Swap) :
    Behavioral.suspiciousSwapCount swaps
      = ((Behavioral.swapsByBlock swaps).map (fun p =>
          if p.2.length < 2 then 0 else 2 * Behavioral.blockReverseOccurrences p.2)).sum ∧
    (swaps ≠ [] →
      Behavioral.wash_trading_pct swaps
        = (Behavioral.suspiciousSwapCount swaps : ℚ) / (swaps.length : ℚ) * 100) := by
  refine ⟨Behavioral.suspiciousSwapCount_eq swaps, ?_⟩
  intro hne
  unfold Behavioral.wash_trading_pct
  rw [if_neg (by simpa [List.isEmpty_iff] using hne)]

/-- C6 (witness): the amended characterization applied to the two-swap
mutual block (where the counter is 4 and the percentage 200). -/
theorem behavioral_wash_characterization_witness :
    Behavioral.wash_trading_pct
      [⟨"1", "A", "B", "A", "t1", 1⟩, ⟨"2", "B", "A", "B", "t2", 1⟩]
      = (Behavioral.suspiciousSwapCount
          [⟨"1", "A", "B", "A", "t1", 1⟩, ⟨"2", "B", "A", "B", "t2", 1⟩] : ℚ)
        / (([⟨"1", "A", "B", "A", "t1", 1⟩,
            ⟨"2", "B", "A", "B", "t2", 1⟩] : List Behavioral.Swap).length : ℚ) * 100 :=
  (behavioral_wash_characterization
    [⟨"1", "A", "B", "A", "t1", 1⟩, ⟨"2", "B", "A", "B", "t2", 1⟩]).2 (by decide)

/-! ## Concentration risk analyzer
(src/pool_risk_service/tools/concentration_risk.py) -/

namespace Concentration

/-- A position as read by the concentration analyzer:
`float(p["liquidity"])` and `int(p["transaction"]["timestamp"])`. -/
structure Position where
  liquidity : ℚ
  timestamp : ℤ
deriving DecidableEq

/-- `np.sum(np.arange(1, n + 1) * sorted_values)` unrolled: the sum of
`i * x_i` with 1-based index `i` starting at the given value. -/
def idxWeightedSum : ℚ → List ℚ → ℚ
  | _, [] => 0
  | i, x :: xs => i * x + idxWeightedSum (i + 1) xs

/-- `_calculate_gini`: sort ascending;
`gini = (2·Σ i·x_i)/(n·Σx) − (n+1)/n` (the last cumulative-sum entry is
the total). -/
def calculate_gini (values : List ℚ) : ℚ :=
  if values.isEmpty then 0
  else
    let sorted_values := values.insertionSort (· ≤ ·)
    let n : ℚ := sorted_values.length
    (2 * idxWeightedSum 1 sorted_values) / (n * sorted_values.sum) - (n + 1) / n

/-- `_calculate_hhi`: sum of squared percentage shares, 0 when the
total is 0. -/
def calculate_hhi (values : List ℚ) (total : ℚ) : ℚ :=
  if total = 0 then 0
  else (values.map (fun v => (v / total * 100) ^ 2)).sum

/-- `_calculate_top_n_dominance`: share of the `n` largest values. -/
def calculate_top_n_dominance (values : List ℚ) (total : ℚ) (n : Nat) : ℚ :=
  if total = 0 then 0
  else ((values.insertionSort (· ≥ ·)).take n).sum / total * 100

/-- Python `round(x, 2)`: half-to-even at two decimals. -/
def pyRound2 (q : ℚ) : ℚ := (RiskScorer.pyRound (q * 100) : ℚ) / 100

/-- `config["risk_thresholds"]["concentration"]`. -/
structure Thresholds where
  top10_dominance_critical_pct : ℚ
  top10_dominance_high_risk_pct : ℚ
  gini_critical : ℚ
  gini_high_risk : ℚ
  hhi_critical : ℚ
  hhi_high_risk : ℚ
deriving DecidableEq

/-- `config["queries"]["lp_age_thresholds_days"]` (in days). -/
structure AgeThresholds where
  mercenary : ℚ
  long_term : ℚ
deriving DecidableEq

/-- The `["mercenary"]["liquidity_pct"]` entry of
`_calculate_lp_age_distribution`: liquidity share of positions younger
than the mercenary day-threshold (the bucket totals sum to the whole
position set), rounded to two decimals, 0 when there is no liquidity. -/
def mercenary_liquidity_pct (positions : List Position) (current_time : ℤ)
    (ages : AgeThresholds) : ℚ :=
  let mercenary_liquidity :=
    ((positions.filter
      (fun p => ((current_time - p.timestamp : ℤ) : ℚ) < ages.mercenary * 86400)).map
      Position.liquidity).sum
  let total_liquidity := (positions.map Position.liquidity).sum
  pyRound2 (if 0 < total_liquidity then mercenary_liquidity / total_liquidity * 100 else 0)

/-- `_generate_risk_flags`: threshold flags appended in source order
(critical overrides high per metric), with the "LOW_RISK" sentinel when
nothing fired. -/
def generate_risk_flags (gini hhi top10_dominance merc_pct : ℚ) (t : Thresholds) :
    List String :=
  let flags :=
    (if top10_dominance > t.top10_dominance_critical_pct then ["CRITICAL_TOP10_DOMINANCE"]
     else if top10_dominance > t.top10_dominance_high_risk_pct then ["HIGH_TOP10_DOMINANCE"]
     else []) ++
    (if gini > t.gini_critical then ["CRITICAL_GINI"]
     else if gini > t.gini_high_risk then ["HIGH_GINI"] else []) ++
    (if hhi > t.hhi_critical then ["CRITICAL_HHI"]
     else if hhi > t.hhi_high_risk then ["HIGH_HHI"] else []) ++
    (if merc_pct > 50 then ["HIGH_MERCENARY_LIQUIDITY"] else [])
  if flags.isEmpty then ["LOW_RISK"] else flags

/-- The `risk_flags` field of the dict returned by
`ConcentrationRiskAnalyzer.analyze`: `["NO_DATA"]` on the empty-fetch
path, otherwise the generated threshold flags. -/
def analyze_risk_flags (positions : List Position) (current_time : ℤ)
    (t : Thresholds) (ages : AgeThresholds) : List String :=
  if positions.isEmpty then ["NO_DATA"]
  else
    let liquidity_values := positions.map Position.liquidity
    let total_liquidity := liquidity_values.sum
    generate_risk_flags
      (calculate_gini liquidity_values)
      (calculate_hhi liquidity_values total_liquidity)
      (calculate_top_n_dominance liquidity_values total_liquidity 10)
      (mercenary_liquidity_pct positions current_time ages)
      t

end Concentration

namespace Concentration

/-- Shifting the starting index of the weighted sum by one adds one copy
of the list sum. -/
theorem idxWeightedSum_shift :
    ∀ (l : List ℚ) (i : ℚ), idxWeightedSum (i + 1) l = idxWeightedSum i l + l.sum := by
  intro l
  induction l with
  | nil => intro i; simp [idxWeightedSum]
  | cons x t ih =>
    intro i
    simp only [idxWeightedSum, List.sum_cons]
    rw [ih (i + 1)]
    ring

/-- A lower bound on a list's sum from a lower bound on its elements. -/
theorem sum_ge_length_mul (a : ℚ) :
    ∀ l : List ℚ, (∀ x ∈ l, a ≤ x) → (l.length : ℚ) * a ≤ l.sum := by
  intro l
  induction l with
  | nil => simp
  | cons x t ih =>
    intro h
    have hx := h x (List.mem_cons_self x t)
    have ht := ih (fun y hy => h y (List.mem_cons_of_mem _ hy))
    simp only [List.length_cons, List.sum_cons]
    push_cast
    have expand : (((t.length : ℚ)) + 1) * a = (t.length : ℚ) * a + a := by ring
    linarith [expand]

/-- For ascending lists the 1-based index-weighted sum dominates the
Gini numerator's lower bound: `(n+1)·Σx ≤ 2·Σ i·x_i`. -/
theorem two_idxWeightedSum_ge :
    ∀ l : List ℚ, List.Sorted (· ≤ ·) l →
      ((l.length : ℚ) + 1) * l.sum ≤ 2 * idxWeightedSum 1 l := by
  intro l
  induction l with
  | nil => simp [idxWeightedSum]
  | cons a t ih =>
    intro hs
    have hpair := List.sorted_cons.mp hs
    have iht := ih hpair.2
    have hge := sum_ge_length_mul a t hpair.1
    simp only [List.length_cons, List.sum_cons, idxWeightedSum]
    rw [show (1 : ℚ) + 1 = 1 + 1 from rfl, idxWeightedSum_shift t 1]
    push_cast
    nlinarith [iht, hge]

/-- For nonnegative lists the index-weighted sum is at most `n·Σx`. -/
theorem idxWeightedSum_le :
    ∀ l : List ℚ, (∀ x ∈ l, 0 ≤ x) →
      idxWeightedSum 1 l ≤ (l.length : ℚ) * l.sum := by
  intro l
  induction l with
  | nil => simp [idxWeightedSum]
  | cons a t ih =>
    intro h
    have ha := h a (List.mem_cons_self a t)
    have ht : ∀ x ∈ t, (0 : ℚ) ≤ x := fun y hy => h y (List.mem_cons_of_mem _ hy)
    have iht := ih ht
    have hsum : (0 : ℚ) ≤ t.sum := List.sum_nonneg ht
    simp only [List.length_cons, List.sum_cons, idxWeightedSum]
    rw [idxWeightedSum_shift t 1]
    push_cast
    nlinarith [iht, mul_nonneg (Nat.cast_nonneg t.length : (0:ℚ) ≤ t.length) ha]

/-- The index-weighted sum of a constant list. -/
theorem idxWeightedSum_replicate (c : ℚ) :
    ∀ n : Nat, 2 * idxWeightedSum 1 (List.replicate n c) = (n : ℚ) * ((n : ℚ) + 1) * c := by
  intro n
  induction n with
  | zero => simp [idxWeightedSum]
  | succ m ih =>
    rw [List.replicate_succ]
    simp only [idxWeightedSum]
    rw [idxWeightedSum_shift, List.sum_replicate, nsmul_eq_mul]
    push_cast
    push_cast at ih
    nlinarith [ih]

end Concentration

/-- C9: for every non-empty list of positive liquidity values the Gini
coefficient computed by `_calculate_gini` lies in [0, 1], and when all
values are equal it is exactly 0. -/
theorem concentration_gini_spec (values : List ℚ)
    (hne : values ≠ []) (hpos : ∀ v ∈ values, 0 < v) :
    0 ≤ Concentration.calculate_gini values ∧
    Concentration.calculate_gini values ≤ 1 ∧
    (∀ c : ℚ, values = List.replicate values.length c →
      Concentration.calculate_gini values = 0) := by
  have hbool : values.isEmpty = false := by
    rw [Bool.eq_false_iff]
    intro hx
    exact hne (List.isEmpty_iff.mp hx)
  have hperm := List.perm_insertionSort (· ≤ ·) values
  set s := values.insertionSort (· ≤ ·) with hsdef
  have hlen : s.length = values.length := hperm.length_eq
  have hsorted : List.Sorted (· ≤ ·) s := List.sorted_insertionSort _ _
  have hpos' : ∀ v ∈ s, 0 < v := fun v hv => hpos v (hperm.mem_iff.mp hv)
  have hsne : s ≠ [] := by
    intro hx
    apply hne
    have : s.length = 0 := by rw [hx]; rfl
    rw [hlen] at this
    exact List.length_eq_zero.mp this
  have hSpos : 0 < s.sum := List.sum_pos s hpos' hsne
  have hnpos : 0 < (s.length : ℚ) := by
    have : 0 < s.length := List.length_pos.mpr hsne
    exact_mod_cast this
  have hginidef : Concentration.calculate_gini values
      = (2 * Concentration.idxWeightedSum 1 s) / ((s.length : ℚ) * s.sum)
        - ((s.length : ℚ) + 1) / (s.length : ℚ) := by
    rw [hsdef]
    unfold Concentration.calculate_gini
    rw [if_neg (by simp [hbool])]
  refine ⟨?_, ?_, ?_⟩
  · rw [hginidef]
    have h2 := Concentration.two_idxWeightedSum_ge s hsorted
    have key : ((s.length : ℚ) + 1) / (s.length : ℚ)
        ≤ 2 * Concentration.idxWeightedSum 1 s / ((s.length : ℚ) * s.sum) := by
      rw [div_le_div_iff hnpos (by positivity)]
      have h3 := mul_le_mul_of_nonneg_right h2 hnpos.le
      nlinarith [h3]
    linarith
  · rw [hginidef]
    have hW := Concentration.idxWeightedSum_le s (fun x hx => (hpos' x hx).le)
    have key2 : 2 * Concentration.idxWeightedSum 1 s / ((s.length : ℚ) * s.sum)
        ≤ (2 * (s.length : ℚ) + 1) / (s.length : ℚ) := by
      rw [div_le_div_iff (by positivity) hnpos]
      have h4 := mul_le_mul_of_nonneg_right hW hnpos.le
      nlinarith [h4, mul_nonneg hnpos.le hSpos.le]
    have e1 : (2 * (s.length : ℚ) + 1) / (s.length : ℚ)
        - ((s.length : ℚ) + 1) / (s.length : ℚ) = 1 := by
      field_simp
      ring
    linarith [key2, e1]
  · intro c hc
    have hn0 : values.length ≠ 0 := by
      intro hx
      exact hne (List.length_eq_zero.mp hx)
    have hcmem : c ∈ values := by
      rw [hc]
      exact List.mem_replicate.mpr ⟨hn0, rfl⟩
    have hcpos := hpos c hcmem
    have hc0 : c ≠ 0 := ne_of_gt hcpos
    have hq0 : (values.length : ℚ) ≠ 0 := by exact_mod_cast hn0
    have hrep_sorted : List.Sorted (· ≤ ·) (List.replicate values.length c) :=
      List.pairwise_replicate.mpr (Or.inr (le_refl c))
    have hseq : s = List.replicate values.length c := by
      rw [hsdef]
      conv_lhs => rw [hc]
      exact hrep_sorted.insertionSort_eq
    rw [hginidef, hseq, Concentration.idxWeightedSum_replicate, List.sum_replicate,
      nsmul_eq_mul, List.length_replicate]
    field_simp
    ring

/-- C9 (witness): three equal positive liquidity values give Gini
exactly 0 (and within bounds). -/
theorem concentration_gini_spec_witness :
    Concentration.calculate_gini (List.replicate 3 (100 : ℚ)) = 0 :=
  (concentration_gini_spec (List.replicate 3 (100 : ℚ)) (by decide)
    (by decide)).2.2 100 rfl

namespace Behavioral

/-- `config["risk_thresholds"]["behavioral"]`. -/
structure Thresholds where
  wash_trading_critical_pct : ℚ
  wash_trading_high_pct : ℚ
  mev_exposure_critical_pct : ℚ
  mev_exposure_high_pct : ℚ
deriving DecidableEq

/-- The sliding triple scan of `_detect_sandwich_attacks` over one
block's id-sorted swaps: record the middle transaction id when the
outer swaps share an origin that differs from the middle one's. -/
def scanTriples : List Swap → List String
  | a :: b :: c :: rest =>
    (if a.origin = c.origin ∧ b.origin ≠ a.origin then [b.txId] else [])
      ++ scanTriples (b :: c :: rest)
  | _ => []

/-- All sandwich-victim transaction ids over all blocks (blocks with
fewer than 3 swaps are skipped; within a block swaps are sorted by swap
id); the Python set keeps each id once, modelled by deduplication at
the point of counting. -/
def mev_victims (swaps : List Swap) : List String :=
  ((swapsByBlock swaps).map (fun p =>
    if p.2.length < 3 then []
    else scanTriples (p.2.insertionSort (fun a b => a.id ≤ b.id)))).flatten

/-- `mev_exposure_pct` of `_detect_sandwich_attacks`: unique victim
transactions over total swaps. -/
def mev_exposure_pct (swaps : List Swap) : ℚ :=
  if swaps.isEmpty then 0
  else ((mev_victims swaps).dedup.length : ℚ) / (swaps.length : ℚ) * 100

/-- `BehavioralRiskAnalyzer._generate_risk_flags`. -/
def generate_risk_flags (wash_trading_pct mev_exposure_pct : ℚ) (t : Thresholds) :
    List String :=
  let flags :=
    (if wash_trading_pct > t.wash_trading_critical_pct then ["CRITICAL_WASH_TRADING"]
     else if wash_trading_pct > t.wash_trading_high_pct then ["HIGH_WASH_TRADING"]
     else []) ++
    (if mev_exposure_pct > t.mev_exposure_critical_pct then ["CRITICAL_MEV_EXPOSURE"]
     else if mev_exposure_pct > t.mev_exposure_high_pct then ["HIGH_MEV_EXPOSURE"]
     else [])
  if flags.isEmpty then ["LOW_RISK"] else flags

/-- The `risk_flags` field of the dict returned by
`BehavioralRiskAnalyzer.analyze`. -/
def analyze_risk_flags (swaps : List Swap) (t : Thresholds) : List String :=
  if swaps.isEmpty then ["NO_DATA"]
  else generate_risk_flags (wash_trading_pct swaps) (mev_exposure_pct swaps) t

end Behavioral

/-! ## Liquidity-depth risk analyzer
(src/pool_risk_service/tools/liquidity_depth_risk.py) -/

namespace LiquidityDepth

/-- A tick record (`tickIdx`, `liquidityNet`, `liquidityGross`). -/
structure Tick where
  tickIdx : ℤ
  liquidityNet : ℚ
  liquidityGross : ℚ
deriving DecidableEq

/-- `config["risk_thresholds"]["liquidity_depth"]`. -/
structure Thresholds where
  price_impact_100k_critical_pct : ℚ
  price_impact_100k_high_pct : ℚ
  price_impact_1m_critical_pct : ℚ
  price_impact_1m_high_pct : ℚ
  active_liquidity_low_pct : ℚ
  tvl_volatility_high_pct : ℚ
deriving DecidableEq

/-- `LiquidityDepthAnalyzer._generate_risk_flags` with its `None`
handling: missing impacts short-circuit to `["NO_DATA"]`; the
active-liquidity and volatility checks are skipped when `None`. -/
def generate_risk_flags (impact_100k impact_1m : Option ℚ)
    (active_liquidity_pct tvl_volatility : Option ℚ) (t : Thresholds) : List String :=
  match impact_100k, impact_1m with
  | some i100, some i1m =>
    let flags :=
      (if i100 > t.price_impact_100k_critical_pct then ["CRITICAL_SLIPPAGE_100K"]
       else if i100 > t.price_impact_100k_high_pct then ["HIGH_SLIPPAGE_100K"] else []) ++
      (if i1m > t.price_impact_1m_critical_pct then ["CRITICAL_SLIPPAGE_1M"]
       else if i1m > t.price_impact_1m_high_pct then ["HIGH_SLIPPAGE_1M"] else []) ++
      (match active_liquidity_pct with
       | some al => if al < t.active_liquidity_low_pct then ["LOW_ACTIVE_LIQUIDITY"] else []
       | none => []) ++
      (match tvl_volatility with
       | some tv => if tv > t.tvl_volatility_high_pct then ["HIGH_TVL_VOLATILITY"] else []
       | none => [])
    if flags.isEmpty then ["LOW_RISK"] else flags
  | _, _ => ["NO_DATA"]

/-- The `risk_flags` field of the dict returned by
`LiquidityDepthAnalyzer.analyze`.  The numeric metrics produced by
`_simulate_sell_order` (np.sqrt), `_calculate_active_liquidity`
(np.log) and `_calculate_tvl_volatility` (np.std) are irrational
computations; they enter here as arbitrary rational parameters, over
which the flag invariants are proved for every possible value. -/
def analyze_risk_flags (ticks : List Tick)
    (impact_100k impact_1m active_liquidity_pct tvl_volatility : ℚ)
    (t : Thresholds) : List String :=
  if ticks.isEmpty then ["NO_DATA"]
  else generate_risk_flags (some impact_100k) (some impact_1m)
    (some active_liquidity_pct) (some tvl_volatility) t

end LiquidityDepth

/-! ## Market risk analyzer
(src/pool_risk_service/tools/market_risk.py) -/

namespace MarketRisk

/-- One `poolDayDatas` record as read by the market analyzer. -/
structure DayData where
  tvlUSD : ℚ
  volumeUSD : ℚ
  token0Price : ℚ
  token1Price : ℚ
deriving DecidableEq

/-- `config["risk_thresholds"]["market_risk"]`. -/
structure Thresholds where
  utilization_rate_critical_low : ℚ
  utilization_rate_low : ℚ
  price_correlation_high_il_risk : ℚ
  price_correlation_low_il_risk : ℚ
deriving DecidableEq

/-- `_calculate_avg_utilization`: mean of volume/tvl over days with
positive tvl, 0 when no such day exists. -/
def calculate_avg_utilization (pool_day_data : List DayData) : ℚ :=
  let utilization_rates :=
    (pool_day_data.filter (fun d => 0 < d.tvlUSD)).map (fun d => d.volumeUSD / d.tvlUSD)
  if utilization_rates.isEmpty then 0
  else utilization_rates.sum / (utilization_rates.length : ℚ)

/-- `MarketRiskAnalyzer._generate_risk_flags`. -/
def generate_risk_flags (utilization correlation : ℚ) (t : Thresholds) : List String :=
  let flags :=
    (if utilization < t.utilization_rate_critical_low then ["CRITICAL_LOW_UTILIZATION"]
     else if utilization < t.utilization_rate_low then ["LOW_UTILIZATION"] else []) ++
    (if correlation < t.price_correlation_high_il_risk then ["VERY_HIGH_IL_RISK"]
     else if correlation < t.price_correlation_low_il_risk then ["HIGH_IL_RISK"] else [])
  if flags.isEmpty then ["LOW_RISK"] else flags

/-- The `risk_flags` field of the dict returned by
`MarketRiskAnalyzer.analyze`.  The Pearson correlation computed by
`np.corrcoef` is an irrational computation; it enters as an arbitrary
rational parameter, over which the flag invariants are proved for every
possible value. -/
def analyze_risk_flags (pool_day_data : List DayData) (correlation : ℚ)
    (t : Thresholds) : List String :=
  if pool_day_data.isEmpty then ["NO_DATA"]
  else generate_risk_flags (calculate_avg_utilization pool_day_data) correlation t

end MarketRisk

/-- Membership in neither branch of a conditional list. -/
theorem not_mem_ite_of {x : String} {c : Prop} [Decidable c] {l1 l2 : List String}
    (h1 : x ∉ l1) (h2 : x ∉ l2) : x ∉ (if c then l1 else l2) := by
  split
  · exact h1
  · exact h2

/-- Membership in neither part of an append. -/
theorem not_mem_append_of {α : Type} {x : α} {l1 l2 : List α}
    (h1 : x ∉ l1) (h2 : x ∉ l2) : x ∉ l1 ++ l2 := by
  intro h
  rcases List.mem_append.mp h with h | h
  · exact h1 h
  · exact h2 h

/-- The `flags if flags else ["LOW_RISK"]` fallback shared by all
analyzers: the result is never empty, and it is either exactly the
sentinel or sentinel-free. -/
theorem sentinel_fallback_spec (l : List String) (hl : "LOW_RISK" ∉ l) :
    (if l.isEmpty then ["LOW_RISK"] else l) ≠ [] ∧
    ((if l.isEmpty then ["LOW_RISK"] else l) = ["LOW_RISK"] ∨
      "LOW_RISK" ∉ (if l.isEmpty then ["LOW_RISK"] else l)) := by
  by_cases h : l.isEmpty
  · rw [if_pos h]
    exact ⟨by simp, Or.inl rfl⟩
  · rw [if_neg h]
    refine ⟨?_, Or.inr hl⟩
    intro hx
    rw [hx] at h
    simp at h

/-- The concentration flag generator never returns an empty or
improperly-sentinelled list. -/
theorem conc_generate_spec (g h t10 m : ℚ) (t : Concentration.Thresholds) :
    Concentration.generate_risk_flags g h t10 m t ≠ [] ∧
    (Concentration.generate_risk_flags g h t10 m t = ["LOW_RISK"] ∨
      "LOW_RISK" ∉ Concentration.generate_risk_flags g h t10 m t) := by
  refine sentinel_fallback_spec _ ?_
  refine not_mem_append_of (not_mem_append_of (not_mem_append_of ?_ ?_) ?_) ?_
  · exact not_mem_ite_of (by decide) (not_mem_ite_of (by decide) (by decide))
  · exact not_mem_ite_of (by decide) (not_mem_ite_of (by decide) (by decide))
  · exact not_mem_ite_of (by decide) (not_mem_ite_of (by decide) (by decide))
  · exact not_mem_ite_of (by decide) (by decide)

/-- The liquidity-depth flag generator on present impacts never returns
an empty or improperly-sentinelled list. -/
theorem liq_generate_spec (i100 i1m al tv : ℚ) (t : LiquidityDepth.Thresholds) :
    LiquidityDepth.generate_risk_flags (some i100) (some i1m) (some al) (some tv) t ≠ [] ∧
    (LiquidityDepth.generate_risk_flags (some i100) (some i1m) (some al) (some tv) t
        = ["LOW_RISK"] ∨
      "LOW_RISK" ∉
        LiquidityDepth.generate_risk_flags (some i100) (some i1m) (some al) (some tv) t) := by
  refine sentinel_fallback_spec _ ?_
  refine not_mem_append_of (not_mem_append_of (not_mem_append_of ?_ ?_) ?_) ?_
  · exact not_mem_ite_of (by decide) (not_mem_ite_of (by decide) (by decide))
  · exact not_mem_ite_of (by decide) (not_mem_ite_of (by decide) (by decide))
  · exact not_mem_ite_of (by decide) (by decide)
  · exact not_mem_ite_of (by decide) (by decide)

/-- The market-risk flag generator never returns an empty or
improperly-sentinelled list. -/
theorem market_generate_spec (u corr : ℚ) (t : MarketRisk.Thresholds) :
    MarketRisk.generate_risk_flags u corr t ≠ [] ∧
    (MarketRisk.generate_risk_flags u corr t = ["LOW_RISK"] ∨
      "LOW_RISK" ∉ MarketRisk.generate_risk_flags u corr t) := by
  refine sentinel_fallback_spec _ ?_
  refine not_mem_append_of ?_ ?_
  · exact not_mem_ite_of (by decide) (not_mem_ite_of (by decide) (by decide))
  · exact not_mem_ite_of (by decide) (not_mem_ite_of (by decide) (by decide))

/-- The behavioral flag generator never returns an empty or
improperly-sentinelled list. -/
theorem behav_generate_spec (wash mev : ℚ) (t : Behavioral.Thresholds) :
    Behavioral.generate_risk_flags wash mev t ≠ [] ∧
    (Behavioral.generate_risk_flags wash mev t = ["LOW_RISK"] ∨
      "LOW_RISK" ∉ Behavioral.generate_risk_flags wash mev t) := by
  refine sentinel_fallback_spec _ ?_
  refine not_mem_append_of ?_ ?_
  · exact not_mem_ite_of (by decide) (not_mem_ite_of (by decide) (by decide))
  · exact not_mem_ite_of (by decide) (not_mem_ite_of (by decide) (by decide))

/-- C5: for every analyzer (Concentration, LiquidityDepth, MarketRisk,
Behavioral) and every input, the returned `risk_flags` list is
non-empty: the empty-data error path yields exactly `["NO_DATA"]`, and
the success path yields either threshold flags (sentinel-free) or
exactly the `["LOW_RISK"]` sentinel — never the empty list. -/
theorem analyzers_risk_flags_never_empty :
    (∀ (positions : List Concentration.Position) (current_time : ℤ)
        (t : Concentration.Thresholds) (ages : Concentration.AgeThresholds),
      Concentration.analyze_risk_flags positions current_time t ages ≠ [] ∧
      (positions = [] →
        Concentration.analyze_risk_flags positions current_time t ages = ["NO_DATA"]) ∧
      (positions ≠ [] →
        Concentration.analyze_risk_flags positions current_time t ages = ["LOW_RISK"] ∨
        "LOW_RISK" ∉ Concentration.analyze_risk_flags positions current_time t ages)) ∧
    (∀ (ticks : List LiquidityDepth.Tick) (impact_100k impact_1m al tv : ℚ)
        (t : LiquidityDepth.Thresholds),
      LiquidityDepth.analyze_risk_flags ticks impact_100k impact_1m al tv t ≠ [] ∧
      (ticks = [] →
        LiquidityDepth.analyze_risk_flags ticks impact_100k impact_1m al tv t
          = ["NO_DATA"]) ∧
      (ticks ≠ [] →
        LiquidityDepth.analyze_risk_flags ticks impact_100k impact_1m al tv t
          = ["LOW_RISK"] ∨
        "LOW_RISK" ∉ LiquidityDepth.analyze_risk_flags ticks impact_100k impact_1m al tv t)) ∧
    (∀ (pool_day_data : List MarketRisk.DayData) (correlation : ℚ)
        (t : MarketRisk.Thresholds),
      MarketRisk.analyze_risk_flags pool_day_data correlation t ≠ [] ∧
      (pool_day_data = [] →
        MarketRisk.analyze_risk_flags pool_day_data correlation t = ["NO_DATA"]) ∧
      (pool_day_data ≠ [] →
        MarketRisk.analyze_risk_flags pool_day_data correlation t = ["LOW_RISK"] ∨
        "LOW_RISK" ∉ MarketRisk.analyze_risk_flags pool_day_data correlation t)) ∧
    (∀ (swaps : List Behavioral.Swap) (t : Behavioral.Thresholds),
      Behavioral.analyze_risk_flags swaps t ≠ [] ∧
      (swaps = [] → Behavioral.analyze_risk_flags swaps t = ["NO_DATA"]) ∧
      (swaps ≠ [] →
        Behavioral.analyze_risk_flags swaps t = ["LOW_RISK"] ∨
        "LOW_RISK" ∉ Behavioral.analyze_risk_flags swaps t)) := by
  refine ⟨?_, ?_, ?_, ?_⟩
  · intro positions ct t ages
    by_cases h : positions.isEmpty
    · have hval : Concentration.analyze_risk_flags positions ct t ages = ["NO_DATA"] := by
        unfold Concentration.analyze_risk_flags
        rw [if_pos h]
      refine ⟨by rw [hval]; simp, fun _ => hval, ?_⟩
      intro hne
      exact absurd (List.isEmpty_iff.mp h) hne
    · have hval : Concentration.analyze_risk_flags positions ct t ages
          = Concentration.generate_risk_flags
            (Concentration.calculate_gini (positions.map Concentration.Position.liquidity))
            (Concentration.calculate_hhi (positions.map Concentration.Position.liquidity)
              (positions.map Concentration.Position.liquidity).sum)
            (Concentration.calculate_top_n_dominance
              (positions.map Concentration.Position.liquidity)
              (positions.map Concentration.Position.liquidity).sum 10)
            (Concentration.mercenary_liquidity_pct positions ct ages) t := by
        unfold Concentration.analyze_risk_flags
        rw [if_neg h]
      have hspec := conc_generate_spec
        (Concentration.calculate_gini (positions.map Concentration.Position.liquidity))
        (Concentration.calculate_hhi (positions.map Concentration.Position.liquidity)
          (positions.map Concentration.Position.liquidity).sum)
        (Concentration.calculate_top_n_dominance
          (positions.map Concentration.Position.liquidity)
          (positions.map Concentration.Position.liquidity).sum 10)
        (Concentration.mercenary_liquidity_pct positions ct ages) t
      refine ⟨by rw [hval]; exact hspec.1, ?_, fun _ => by rw [hval]; exact hspec.2⟩
      intro heq
      rw [heq] at h
      simp at h
  · intro ticks i100 i1m al tv t
    by_cases h : ticks.isEmpty
    · have hval : LiquidityDepth.analyze_risk_flags ticks i100 i1m al tv t = ["NO_DATA"] := by
        unfold LiquidityDepth.analyze_risk_flags
        rw [if_pos h]
      refine ⟨by rw [hval]; simp, fun _ => hval, ?_⟩
      intro hne
      exact absurd (List.isEmpty_iff.mp h) hne
    · have hval : LiquidityDepth.analyze_risk_flags ticks i100 i1m al tv t
          = LiquidityDepth.generate_risk_flags (some i100) (some i1m) (some al) (some tv) t := by
        unfold LiquidityDepth.analyze_risk_flags
        rw [if_neg h]
      have hspec := liq_generate_spec i100 i1m al tv t
      refine ⟨by rw [hval]; exact hspec.1, ?_, fun _ => by rw [hval]; exact hspec.2⟩
      intro heq
      rw [heq] at h
      simp at h
  · intro pool_day_data corr t
    by_cases h : pool_day_data.isEmpty
    · have hval : MarketRisk.analyze_risk_flags pool_day_data corr t = ["NO_DATA"] := by
        unfold MarketRisk.analyze_risk_flags
        rw [if_pos h]
      refine ⟨by rw [hval]; simp, fun _ => hval, ?_⟩
      intro hne
      exact absurd (List.isEmpty_iff.mp h) hne
    · have hval : MarketRisk.analyze_risk_flags pool_day_data corr t
          = MarketRisk.generate_risk_flags
            (MarketRisk.calculate_avg_utilization pool_day_data) corr t := by
        unfold MarketRisk.analyze_risk_flags
        rw [if_neg h]
      have hspec := market_generate_spec
        (MarketRisk.calculate_avg_utilization pool_day_data) corr t
      refine ⟨by rw [hval]; exact hspec.1, ?_, fun _ => by rw [hval]; exact hspec.2⟩
      intro heq
      rw [heq] at h
      simp at h
  · intro swaps t
    by_cases h : swaps.isEmpty
    · have hval : Behavioral.analyze_risk_flags swaps t = ["NO_DATA"] := by
        unfold Behavioral.analyze_risk_flags
        rw [if_pos h]
      refine ⟨by rw [hval]; simp, fun _ => hval, ?_⟩
      intro hne
      exact absurd (List.isEmpty_iff.mp h) hne
    · have hval : Behavioral.analyze_risk_flags swaps t
          = Behavioral.generate_risk_flags (Behavioral.wash_trading_pct swaps)
            (Behavioral.mev_exposure_pct swaps) t := by
        unfold Behavioral.analyze_risk_flags
        rw [if_neg h]
      have hspec := behav_generate_spec (Behavioral.wash_trading_pct swaps)
        (Behavioral.mev_exposure_pct swaps) t
      refine ⟨by rw [hval]; exact hspec.1, ?_, fun _ => by rw [hval]; exact hspec.2⟩
      intro heq
      rw [heq] at h
      simp at h

/-- C5 (witness): the concentration analyzer's empty-fetch path yields
exactly `["NO_DATA"]`. -/
theorem analyzers_risk_flags_never_empty_witness :
    Concentration.analyze_risk_flags [] 0 ⟨0, 0, 0, 0, 0, 0⟩ ⟨0, 0⟩ = ["NO_DATA"] :=
  (analyzers_risk_flags_never_empty.1 [] 0 ⟨0, 0, 0, 0, 0, 0⟩ ⟨0, 0⟩).2.1 rfl

/-! ## Backend orchestrator nodes (src/backend/workflows/rag/nodes.py) -/

namespace AgentRouter

/-- One sub-agent's `{answer, metadata, risk_score}` result as stored in
the orchestrator state; the metadata dict is reduced to its optional
error entry. -/
structure SubAgentResult where
  answer : String
  error : Option String
  risk_score : ℚ
deriving DecidableEq

/-- The discovery guard of `OrchestratorNodes.invoke_pool_risk`: an
agent missing from `remote_agent_connections` yields the fixed
unavailable placeholder instead of performing the A2A call (whose
outcome, success or failure placeholder, is `remote`). -/
def invoke_pool_risk (connections : List String) (remote : SubAgentResult) :
    SubAgentResult :=
  if "pool_risk" ∈ connections then remote
  else ⟨"Pool Risk agent unavailable", some "Agent not discovered", 0⟩

/-- The discovery guard of `OrchestratorNodes.invoke_token_intel`. -/
def invoke_token_intel (connections : List String) (remote : SubAgentResult) :
    SubAgentResult :=
  if "token_intelligence" ∈ connections then remote
  else ⟨"Token Intelligence agent unavailable", some "Agent not discovered", 0⟩

/-- The truthiness filter of `finalize_output`: a sub-agent contributes
its score only when its result dict is present in the state and
`.get("risk_score")` is truthy (non-None and nonzero). -/
def scoreContribution : Option SubAgentResult → List ℚ
  | some r => if r.risk_score ≠ 0 then [r.risk_score] else []
  | none => []

/-- `risk_scores` in `finalize_output` (pool risk appended first). -/
def riskScores (pool_risk token_intel : Option SubAgentResult) : List ℚ :=
  scoreContribution pool_risk ++ scoreContribution token_intel

/-- `composite_risk` in `finalize_output`: arithmetic mean of the
contributing scores, 0.0 when none contribute. -/
def composite_risk (pool_risk token_intel : Option SubAgentResult) : ℚ :=
  let risk_scores := riskScores pool_risk token_intel
  if risk_scores.isEmpty then 0
  else risk_scores.sum / (risk_scores.length : ℚ)

end AgentRouter

/-- C8: an agent absent from the discovery table yields the fixed
"unavailable" placeholder with score 0 instead of failing the request;
the composite risk score is the arithmetic mean of the sub-agent scores
that are present (the failed agent's zero score is excluded from, not
zeroed into, the mean — with both present it is the two-score mean),
and with no scores present the composite is 0. -/
theorem agentRouter_unavailable_excluded
    (connections : List String) (hnd : "pool_risk" ∉ connections)
    (remote tok : AgentRouter.SubAgentResult) (hts : tok.risk_score ≠ 0) :
    AgentRouter.invoke_pool_risk connections remote
      = ⟨"Pool Risk agent unavailable", some "Agent not discovered", 0⟩ ∧
    AgentRouter.composite_risk
      (some (AgentRouter.invoke_pool_risk connections remote)) (some tok)
      = tok.risk_score ∧
    AgentRouter.composite_risk
      (some (AgentRouter.invoke_pool_risk connections remote)) none = 0 ∧
    (∀ p q : AgentRouter.SubAgentResult, p.risk_score ≠ 0 → q.risk_score ≠ 0 →
      AgentRouter.composite_risk (some p) (some q)
        = (p.risk_score + q.risk_score) / 2) := by
  have h1 : AgentRouter.invoke_pool_risk connections remote
      = ⟨"Pool Risk agent unavailable", some "Agent not discovered", 0⟩ := by
    unfold AgentRouter.invoke_pool_risk
    rw [if_neg hnd]
  refine ⟨h1, ?_, ?_, ?_⟩
  · rw [h1]
    simp [AgentRouter.composite_risk, AgentRouter.riskScores,
      AgentRouter.scoreContribution, hts]
  · rw [h1]
    simp [AgentRouter.composite_risk, AgentRouter.riskScores,
      AgentRouter.scoreContribution]
  · intro p q hp hq
    simp [AgentRouter.composite_risk, AgentRouter.riskScores,
      AgentRouter.scoreContribution, hp, hq]

/-- C8 (witness): with only the token-intelligence agent discovered, the
pool-risk placeholder's zero score is excluded and the composite equals
the token agent's score. -/
theorem agentRouter_unavailable_excluded_witness :
    AgentRouter.composite_risk
      (some (AgentRouter.invoke_pool_risk ["token_intelligence"] ⟨"x", none, 77⟩))
      (some ⟨"t", none, 80⟩)
      = (⟨"t", none, 80⟩ : AgentRouter.SubAgentResult).risk_score :=
  (agentRouter_unavailable_excluded ["token_intelligence"] (by decide)
    ⟨"x", none, 77⟩ ⟨"t", none, 80⟩ (by decide)).2.1
